import Mathlib

/-!
The ark-ssh session pool and interactive-shell protocol layer

A shallow embedding of the Go sources `ark_ssh.go`, `ssh_session.go` and
`ssh_session_manager.go`, followed by the properties established about them.

Conventions of the embedding

* A Go `string` is modelled by `Str`, the list of its code points.  All the
  `strings` functions used by the sources (`Contains`, `Replace`, `Split`,
  `LastIndex`, `TrimRight`, `TrimSpace`) act on well-formed UTF-8 text the same
  way on bytes as on code points, an index being counted in code points here.
* `strings.LastIndex` returns `none` where Go returns `-1`.
* Go `int` is the 64-bit two's-complement integer; arithmetic that can overflow
  is wrapped explicitly with `wrapInt`.
* A channel read by polling is modelled by the list of chunks that the
  successive polls return; a poll past the end of the list returns nothing.
-/

namespace ArkSSH

/-! ## Text primitives (package `strings`) -/

/-- Text of a Go string, as the list of its code points. -/
abbrev Str := List Char

/-- Go `strings.HasPrefix s pre`. -/
def HasPrefix : Str → Str → Bool
  | _, [] => true
  | [], _ :: _ => false
  | c :: s, p :: ps => c == p && HasPrefix s ps

/-- Go `strings.Contains s sub`. -/
def Contains : Str → Str → Bool
  | [], sub => sub.isEmpty
  | c :: s, sub => HasPrefix (c :: s) sub || Contains s sub

/-- Go `strings.LastIndex s sub`; `none` stands for the `-1` of Go. -/
def LastIndex : Str → Str → Option Nat
  | [], sub => if sub.isEmpty then some 0 else none
  | c :: s, sub =>
    match LastIndex s sub with
    | some i => some (i + 1)
    | none => if HasPrefix (c :: s) sub then some 0 else none

/-- Left-to-right scan of `strings.Replace` for a non-empty `old`: `skip` counts
the characters of a match that are still to be passed over. -/
def replaceFrom (old new : Str) : Nat → Str → Str
  | _, [] => []
  | skip + 1, _ :: s => replaceFrom old new skip s
  | 0, c :: s =>
    if HasPrefix (c :: s) old then new ++ replaceFrom old new (old.length - 1) s
    else c :: replaceFrom old new 0 s

/-- Go `strings.Replace s old new (-1)`: every non-overlapping occurrence of
`old`, found from the left, is replaced by `new`; an empty `old` matches before
every character and at the end. -/
def Replace (s old new : Str) : Str :=
  if old.isEmpty then new ++ s.flatMap (fun c => c :: new) else replaceFrom old new 0 s

/-- Go `strings.Split s sep` for the one-character separator the sources use. -/
def Split : Str → Char → List Str
  | [], _ => [[]]
  | c :: s, sep =>
    if c = sep then [] :: Split s sep
    else
      match Split s sep with
      | [] => [[c]]
      | l :: ls => (c :: l) :: ls

/-- Go `strings.TrimRight s cutset`. -/
def TrimRight (s cutset : Str) : Str :=
  (s.reverse.dropWhile (fun c => cutset.contains c)).reverse

/-- White space in the sense of `unicode.IsSpace`, which `strings.TrimSpace` uses. -/
def isSpace (c : Char) : Bool :=
  c = '\t' || c = '\n' || c = '\x0b' || c = '\x0c' || c = '\r' || c = ' ' ||
  c.toNat = 0x85 || c.toNat = 0xA0 || c.toNat = 0x1680 ||
  (0x2000 ≤ c.toNat && c.toNat ≤ 0x200A) ||
  c.toNat = 0x2028 || c.toNat = 0x2029 || c.toNat = 0x202F || c.toNat = 0x205F ||
  c.toNat = 0x3000

/-- Go `strings.TrimSpace s`. -/
def TrimSpace (s : Str) : Str :=
  ((s.dropWhile isSpace).reverse.dropWhile isSpace).reverse

/-! ## Output normalizer (`ark_ssh.go`, `filterResult`) -/

/-- The marker of a line that reports when the configuration was last changed. -/
def lastConfigMarker : Str := "Last configuration was".toList

/-- The sentence that replaces a marked line. -/
def lastConfigCanonical : Str := "Last configuration updateed or saved".toList

/-- Body of the loop of `filterResult` on one line `resultItem`. -/
def filterLine (resultItem : Str) : Str :=
  let resultItem1 := Replace resultItem [' ', '\x08'] []
  let resultItem2 := TrimRight resultItem1 [' ']
  if Contains resultItem2 lastConfigMarker then
    Replace resultItem2 resultItem2 lastConfigCanonical
  else resultItem2

/-- The loop of `filterResult`: `filteredResult += resultItem + "\n"` for every line. -/
def filterLines : List Str → Str → Str
  | [], filteredResult => filteredResult
  | resultItem :: rest, filteredResult =>
    filterLines rest (filteredResult ++ filterLine resultItem ++ ['\n'])

/-- The text of `filterResult` before the command echo is looked for. -/
def normalizeLines (result : Str) : Str :=
  let cleanResult := Replace result ['\r', '\r', '\n'] ['\r', '\n']
  let cleanResult2 := Replace cleanResult [' ', '\r', '\n'] ['\r', '\n']
  let resultArray := Split cleanResult2 '\n'
  filterLines resultArray []

/-- Go `filterResult result firstCmd`. -/
def filterResult (result firstCmd : Str) : Str :=
  let filteredResult := normalizeLines result
  match LastIndex filteredResult (firstCmd ++ ['\r']) with
  | some index => TrimSpace (filteredResult.drop index)
  | none => filteredResult

/-! ## Prompt pattern (`PROMPT`, package `regexp`) -/

/-- One factor of a regular expression: a character class repeated between
`lo` and `hi` times (`hi = none`: no upper bound). -/
structure ReItem where
  cls : Char → Bool
  lo : Nat
  hi : Option Nat

/-- A sequence of factors matches the whole of a text. -/
def matchItems : List ReItem → Str → Bool
  | [], s => s.isEmpty
  | it :: rest, s =>
    (List.range (s.length + 1)).any fun k =>
      decide (it.lo ≤ k) &&
      (match it.hi with
        | some h => decide (k ≤ h)
        | none => true) &&
      (s.take k).all it.cls && matchItems rest (s.drop k)

/-- A literal character. -/
def reLit (c : Char) : ReItem := ⟨fun x => x == c, 1, some 1⟩

/-- The class `\s` of RE2: tab, line feed, form feed, carriage return, space. -/
def reSpace (c : Char) : Bool :=
  c == '\t' || c == '\n' || c == '\x0c' || c == '\r' || c == ' '

/-- The factor `\s*`. -/
def reSpaces : ReItem := ⟨reSpace, 0, none⟩

/-- The four alternatives of `PROMPT`, each one anchored at the end of the text by `$`:
`\n<[^!]{1,100}>\s*$`, `\n\[[^\]]{1,100}\]\s*$`, `\n[^!\n ]{3,30}[^ \n]#\s*$`,
`\n.*\[[^\]]{1,100}\]#\s*$`. -/
def PROMPT : List (List ReItem) :=
  [ [reLit '\n', reLit '<', ⟨fun c => c != '!', 1, some 100⟩, reLit '>', reSpaces],
    [reLit '\n', reLit '[', ⟨fun c => c != ']', 1, some 100⟩, reLit ']', reSpaces],
    [reLit '\n', ⟨fun c => c != '!' && c != '\n' && c != ' ', 3, some 30⟩,
      ⟨fun c => c != ' ' && c != '\n', 1, some 1⟩, reLit '#', reSpaces],
    [reLit '\n', ⟨fun c => c != '\n', 0, none⟩, reLit '[', ⟨fun c => c != ']', 1, some 100⟩,
      reLit ']', reLit '#', reSpaces] ]

/-- The test `len(reg.FindAllString(output, -1)) >= 1` for `reg = PROMPT`: some
alternative matches from some position up to the end of the text. -/
def promptMatch (output : Str) : Bool :=
  output.tails.any fun suffix => PROMPT.any fun alt => matchItems alt suffix

/-! ## Shell session (`ssh_session.go`) -/

/-- The state of an `SSHSession`.  `inp` lists the commands sent on the channel
`in`, oldest first; `out` lists the chunks that the successive polls of the channel
`out` return; `polls` counts the polls made so far; `closed` records a call of
`Close`. -/
structure SSHSession where
  inp : List Str
  out : List Str
  brand : Str
  lastUseTime : Int
  closed : Bool
  polls : Nat
deriving DecidableEq, Inhabited

/-- Go `readChannelData`: everything the channel `out` holds at the moment of the poll. -/
def readChannelData (s : SSHSession) : Str × SSHSession :=
  match s.out with
  | [] => ([], { s with polls := s.polls + 1 })
  | channelData :: rest => (channelData, { s with out := rest, polls := s.polls + 1 })

/-- Go `WriteChannel`; `none` is the panic of a send on a closed channel. -/
def WriteChannel (s : SSHSession) (cmds : List Str) : Option SSHSession :=
  if s.closed && !cmds.isEmpty then none else some { s with inp := s.inp ++ cmds }

/-- Go `Close`. -/
def Close (s : SSHSession) : SSHSession := { s with closed := true }

/-- Go `UpdateLastUseTime`, the clock reading `now`. -/
def UpdateLastUseTime (now : Int) (s : SSHSession) : SSHSession := { s with lastUseTime := now }

/-- A Go `int` (64 bits, two's complement) holding the integer `x`. -/
def wrapInt (x : Int) : Int := (x + 2 ^ 63) % 2 ^ 64 - 2 ^ 63

/-- The value of `loops := timeout * 1000 / loopDelay` in `ReadChannelTiming`. -/
def timingLoops (timeout : Int) : Int := Int.tdiv (wrapInt (timeout * 1000)) 100

/-- The loop of `ReadChannelTiming` with `n` iterations left. -/
def readTimingLoop : Nat → Str → SSHSession → (Str × Bool) × SSHSession
  | 0, output, s => ((output, false), s)
  | n + 1, output, s =>
    let (newData, s1) := readChannelData s
    if newData ≠ [] then
      let output1 := output ++ newData
      if promptMatch output1 then ((output1, true), s1)
      else readTimingLoop n output1 s1
    else readTimingLoop n output s1

/-- Go `ReadChannelTiming timeout`. -/
def ReadChannelTiming (timeout : Int) (s : SSHSession) : (Str × Bool) × SSHSession :=
  readTimingLoop (timingLoops timeout).toNat [] s

/-- The loop of `ReadChannelExpect` with `n` iterations left. -/
def readExpectLoop (expects : List Str) : Nat → Bool → Str → SSHSession → Str × SSHSession
  | 0, _, output, s => (output, s)
  | n + 1, isDelayed, output, s =>
    let (newData, s1) := readChannelData s
    if newData ≠ [] then readExpectLoop expects n false (output ++ newData) s1
    else if expects.any (fun expect => Contains output expect) then (output, s1)
    else if !isDelayed then readExpectLoop expects n true output s1
    else (output, s1)

/-- Go `ReadChannelExpect timeout expects...`; the idle time-out only sets how
long the loop sleeps. -/
def ReadChannelExpect (_timeout : Int) (expects : List Str) (s : SSHSession) :
    Str × SSHSession :=
  readExpectLoop expects 100 false [] s

/-- The prompt terminators the sources wait for: `#`, `>`, `]`. -/
def promptMarkers : List Str := [['#'], ['>'], [']']]

/-- Go `CheckSelf`: a panic of `WriteChannel` is recovered and answers `false`. -/
def CheckSelf (s : SSHSession) : Bool × SSHSession :=
  match WriteChannel s [['\n']] with
  | none => (false, s)
  | some s1 =>
    let (result, s2) := ReadChannelExpect 2000 promptMarkers s1
    (Contains result ['#'] || Contains result ['>'] || Contains result [']'], s2)

/-- What the sources take from outside: `strings.ToLower`, the reading of the clock
(`time.Now`, in nanoseconds) and the outcome of opening a shell on a target (the
error text of `createConnection`, `muxShell` or `start`, or else the chunks that
the polls of the new session will return). -/
structure World where
  ToLower : Str → Str
  now : Int
  dial : Str → Str → Str → Except Str (List Str)

def HUAWEI : Str := "huawei".toList
def HUARONG : Str := "huarong".toList
def FutureMatrix : Str := "futurematrix".toList
def AnShi : Str := "anshi".toList
def SANGFOR : Str := "sangfor".toList
def H3C : Str := "h3c".toList
def CISCO : Str := "cisco".toList
def LINUX : Str := "linux".toList
def DIPU : Str := "dptech".toList
def ZTE : Str := "zte".toList

/-- The commands `GetSSHBrand` sends to make the device name itself. -/
def brandProbes : List Str :=
  ["dis version".toList, "     ".toList, "show version".toList, "     ".toList,
   "list mode".toList, "     ".toList, "show privilege".toList, "     ".toList,
   "uname -s".toList, "     ".toList]

/-- The chain of tests of `GetSSHBrand` on the lower-cased probe output `result`:
the new value of the field `brand`, which was `old`. -/
def brandOf (result old : Str) : Str :=
  if Contains result HUAWEI || Contains result HUARONG || Contains result FutureMatrix then HUAWEI
  else if Contains result H3C then H3C
  else if Contains result SANGFOR then SANGFOR
  else if Contains result AnShi || Contains result "fit mode".toList ||
      Contains result "fat mode".toList then AnShi
  else if Contains result LINUX then LINUX
  else if Contains result DIPU then DIPU
  else if Contains result "current privilege".toList then ZTE
  else if Contains result CISCO then CISCO
  else old

/-- Go `GetSSHBrand`: a panic of `WriteChannel` is recovered and answers `""`. -/
def GetSSHBrand (w : World) (s : SSHSession) : Str × SSHSession :=
  if s.brand ≠ [] then (s.brand, s)
  else
    match WriteChannel s brandProbes with
    | none => ([], s)
    | some s1 =>
      let (result, s2) := ReadChannelTiming 15 s1
      let brand := brandOf (w.ToLower result.1) s2.brand
      (brand, { s2 with brand := brand })

/-- Go `NewSSHSession`: the connection is opened, `start` waits for the login
output, and the session is stamped with the current time. -/
def NewSSHSession (w : World) (user password ipPort : Str) : Except Str SSHSession :=
  match w.dial user password ipPort with
  | .error err => .error err
  | .ok stream =>
    let s0 : SSHSession :=
      { inp := [], out := stream, brand := [], lastUseTime := 0, closed := false, polls := 0 }
    let s1 := (ReadChannelExpect 1000 promptMarkers s0).2
    .ok { s1 with lastUseTime := w.now, brand := [] }

/-! ## Session pool (`ssh_session_manager.go`) -/

def HuaweiNoPage : Str := "screen-length 0 temporary".toList
def H3cNoPage : Str := "screen-length disable".toList
def CiscoNoPage : Str := "terminal length 0".toList
def SangforNoPage : Str := "terminal length 0".toList
def DiPuNoPage : Str := "terminal line 0".toList
def ZTENoPage : Str := "terminal length 0".toList
def AnshiNoPage : Str := []
def LinuxNopage : Str := []

/-- The state of the `SessionManager`.  A `*SSHSession` is the index of the
session in `heap`, which holds every session created so far; `sessionCache` is
the map from session key to session. -/
structure SessionManager where
  heap : List SSHSession
  sessionCache : List (Str × Nat)
deriving DecidableEq, Inhabited

/-- The key of a session: `user + "_" + password + "_" + ipPort`. -/
def sessionKey (user password ipPort : Str) : Str :=
  user ++ ['_'] ++ password ++ ['_'] ++ ipPort

/-- Map assignment `m[k] = v`. -/
def mapSet {α : Type} : List (Str × α) → Str → α → List (Str × α)
  | [], k, v => [(k, v)]
  | (k1, v1) :: rest, k, v =>
    if k1 = k then (k, v) :: rest else (k1, v1) :: mapSet rest k v

/-- Map lookup `v, ok := m[k]`. -/
def mapGet {α : Type} : List (Str × α) → Str → Option α
  | [], _ => none
  | (k1, v1) :: rest, k => if k1 = k then some v1 else mapGet rest k

/-- Map removal `delete(m, k)`. -/
def mapDelete {α : Type} (m : List (Str × α)) (k : Str) : List (Str × α) :=
  m.filter fun e => e.1 ≠ k

/-- Go `SetSessionCache`. -/
def SetSessionCache (m : SessionManager) (key : Str) (session : Nat) : SessionManager :=
  { m with sessionCache := mapSet m.sessionCache key session }

/-- Go `GetSessionCache`; `none` is the `nil` session. -/
def GetSessionCache (m : SessionManager) (key : Str) : Option Nat :=
  mapGet m.sessionCache key

/-- The pagination-disable commands that `initSession` writes for `brand`;
`none` is the `default` branch, which returns at once. -/
def noPageCmds (brand : Str) : Option (List Str) :=
  if brand = HUAWEI then some [HuaweiNoPage]
  else if brand = H3C then some [H3cNoPage]
  else if brand = SANGFOR then some [SangforNoPage]
  else if brand = AnShi then some [AnshiNoPage]
  else if brand = CISCO then some [CiscoNoPage]
  else if brand = LINUX then some [LinuxNopage]
  else if brand = ZTE then some [ZTENoPage]
  else if brand = [] then some [HuaweiNoPage, H3cNoPage, SangforNoPage, DiPuNoPage]
  else none

/-- Go `initSession`; `none` is a panic of `WriteChannel`. -/
def initSession (w : World) (session : SSHSession) (brand : Str) : Option SSHSession :=
  let detected := if brand = [] then GetSSHBrand w session else (brand, session)
  match noPageCmds detected.1 with
  | none => some detected.2
  | some cmds =>
    match WriteChannel detected.2 cmds with
    | none => none
    | some s1 => some (ReadChannelTiming 5 s1).2

/-- Go `updateSession`: the error of `NewSSHSession`, if any, and the new state of
the manager; `none` is a panic. -/
def updateSession (w : World) (m : SessionManager) (user password ipPort brand : Str) :
    Option (Option Str × SessionManager) :=
  match NewSSHSession w user password ipPort with
  | .error err => some (some err, m)
  | .ok mySession =>
    match initSession w mySession brand with
    | none => none
    | some s1 =>
      some (none, SetSessionCache { m with heap := m.heap ++ [s1] }
        (sessionKey user password ipPort) m.heap.length)

/-- Go `GetSession`: the error, or else the session read back from the cache, and the
new state of the manager; `none` is a panic. -/
def GetSession (w : World) (m : SessionManager) (user password ipPort brand : Str) :
    Option (Except Str (Option Nat) × SessionManager) :=
  let key := sessionKey user password ipPort
  let fresh (m1 : SessionManager) : Option (Except Str (Option Nat) × SessionManager) :=
    match updateSession w m1 user password ipPort brand with
    | none => none
    | some (some err, m2) => some (.error err, m2)
    | some (none, m2) => some (.ok (GetSessionCache m2 key), m2)
  match GetSessionCache m key with
  | none => fresh m
  | some a =>
    match m.heap[a]? with
    | none => fresh m
    | some session =>
      let checked := CheckSelf session
      if checked.1 then
        some (.ok (some a), { m with heap := m.heap.set a (UpdateLastUseTime w.now checked.2) })
      else fresh { m with heap := m.heap.set a checked.2 }

/-- The test `timeDuratime.Minutes() > 9` on a duration in nanoseconds: the
floating-point number of minutes exceeds 9 exactly when the duration exceeds
540 000 000 000 ns. -/
def olderThanNineMinutes (timeDuratime : Int) : Bool :=
  decide (9 * 60 * 1000000000 < timeDuratime)

/-- The loop of `getTimeoutSessionIndex` over the entries of the cache, in the
order in which the map yields them. -/
def timeoutScan (now : Int) :
    List (Str × Nat) → List SSHSession → List Str → List SSHSession × List Str
  | [], heap, timeoutSessionIndex => (heap, timeoutSessionIndex)
  | (key, a) :: rest, heap, timeoutSessionIndex =>
    match heap[a]? with
    | none => timeoutScan now rest heap timeoutSessionIndex
    | some session =>
      if olderThanNineMinutes (now - session.lastUseTime) then
        timeoutScan now rest (heap.set a (Close session)) (timeoutSessionIndex ++ [key])
      else timeoutScan now rest heap timeoutSessionIndex

/-- Go `getTimeoutSessionIndex`: the sessions it closed are closed in the heap. -/
def getTimeoutSessionIndex (w : World) (m : SessionManager) : List Str × SessionManager :=
  let r := timeoutScan w.now m.sessionCache m.heap []
  (r.2, { m with heap := r.1 })

/-- One iteration of the loop of `RunAutoClean`. -/
def RunAutoCleanOnce (w : World) (m : SessionManager) : SessionManager :=
  let r := getTimeoutSessionIndex w m
  { r.2 with sessionCache := r.1.foldl mapDelete r.2.sessionCache }

/-! ## Command executor (`ark_ssh.go`) -/

/-- Go `OneCMDRes`. -/
structure OneCMDRes where
  RES : Str
  Status : Str
deriving DecidableEq, Inhabited

/-- The fields of Go `Device` that the command executor reads or writes. -/
structure Device where
  IP : Str
  Port : Str
  Username : Str
  Password : Str
  Brand : Str
  Cmds : List Str
  Timeout : Int
  SendStatus : Str
  RawResult : Str
  MapResult : List (Str × OneCMDRes)
deriving DecidableEq, Inhabited

def statusSuccess : Str := "success".toList
def statusEmpty : Str := "采集配置为空".toList
def statusIncomplete : Str := "配置采集不完整".toList
def statusUnknown : Str := "读回显遇到未知错误".toList
def statusPartial : Str := "存在部分命令采集异常".toList

/-- The `switch` of `RunCmdWithBrand` on the outcome `(RES, ok)` of the prompt read. -/
def cmdStatus (RES : Str) (ok : Bool) : Str :=
  if ok then statusSuccess
  else if !ok && RES == [] then statusEmpty
  else if !ok && RES != [] then statusIncomplete
  else statusUnknown

/-- The `switch` of `RunCmdWithBrand` on the error text of `GetSession`. -/
def sessionErrorStatus (err IP : Str) : Str :=
  if Contains err "unable to authenticate".toList then "密码错误,IP为".toList ++ IP
  else if Contains err "reset by peer".toList then "多次登录失败，设备拒绝连接,IP为".toList ++ IP
  else if Contains err "timed out".toList then "登录验证连接超时,IP为".toList ++ IP
  else if Contains err "connection refused".toList then "22端口未开,IP为".toList ++ IP
  else if Contains err "timeout sending".toList then "发送命令连接超时,IP为".toList ++ IP
  else "其他错误:".toList ++ err ++ ",IP为".toList ++ IP

/-- The variables of the command loop of `RunCmdWithBrand`. -/
structure CmdLoop where
  successNum : Nat
  rawRes : Str
  mapRes : List (Str × OneCMDRes)
deriving DecidableEq, Inhabited

/-- The command loop of `RunCmdWithBrand`; `none` is a panic of `WriteChannel`. -/
def runCmds (timeOut : Int) : List Str → SSHSession → CmdLoop → Option (CmdLoop × SSHSession)
  | [], s, acc => some (acc, s)
  | cmd :: rest, s, acc =>
    match WriteChannel s [cmd] with
    | none => none
    | some s1 =>
      let r := ReadChannelTiming timeOut s1
      let status := cmdStatus r.1.1 r.1.2
      let one : OneCMDRes := { RES := filterResult r.1.1 cmd, Status := status }
      runCmds timeOut rest r.2
        { successNum := if r.1.2 then acc.successNum + 1 else acc.successNum,
          rawRes := acc.rawRes ++ one.RES,
          mapRes := mapSet acc.mapRes cmd one }

/-- The outcomes `(RES, ok)` of the prompt reads that the command loop makes, one
for each command, in order. -/
def readOutcomes (timeOut : Int) : List Str → SSHSession → List (Str × Bool)
  | [], _ => []
  | cmd :: rest, s =>
    match WriteChannel s [cmd] with
    | none => []
    | some s1 =>
      let r := ReadChannelTiming timeOut s1
      r.1 :: readOutcomes timeOut rest r.2

/-- What a call of `RunCmdWithBrand` leaves: the device record, the state of the
session manager and the error returned. -/
structure RunResult where
  device : Device
  manager : SessionManager
  err : Option Str
deriving DecidableEq, Inhabited

/-- The device after the default port of `RunCmdWithBrand` is applied. -/
def withDefaultPort (d : Device) : Device :=
  if d.Port = [] then { d with Port := ['2', '2'] } else d

/-- The time-out that `RunCmdWithBrand` uses: the one of the device when it is set. -/
def effectiveTimeout (d : Device) (timeOut : Int) : Int :=
  if d.Timeout ≠ 0 then d.Timeout else timeOut

/-- The target `ipPort := d.IP + ":" + d.Port` of a device. -/
def ipPortOf (d : Device) : Str := d.IP ++ [':'] ++ d.Port

/-- Go `RunCmdWithBrand` up to the assignment of `MapResult`; the structured
extraction that follows does not touch the fields kept here.  `none` is a panic. -/
def RunCmdWithBrand (w : World) (m : SessionManager) (d0 : Device) (timeOut0 : Int) :
    Option RunResult :=
  let d := withDefaultPort d0
  let timeOut := effectiveTimeout d timeOut0
  let ipPort := ipPortOf d
  match GetSession w m d.Username d.Password ipPort d.Brand with
  | none => none
  | some (.error err, m1) =>
    some { device := { d with SendStatus := sessionErrorStatus err d.IP }, manager := m1,
           err := some err }
  | some (.ok none, _) => none
  | some (.ok (some a), m1) =>
    match m1.heap[a]? with
    | none => none
    | some sshSession =>
      match runCmds timeOut d.Cmds sshSession { successNum := 0, rawRes := [], mapRes := [] } with
      | none => none
      | some (acc, s1) =>
        some { device :=
                 { d with
                   SendStatus :=
                     if acc.successNum = d.Cmds.length then statusSuccess else statusPartial,
                   RawResult := acc.rawRes,
                   MapResult := acc.mapRes },
               manager := { m1 with heap := m1.heap.set a s1 },
               err := none }

/-! ## Per-key locks (`LockSession`, `UnlockSession`) under interleaving -/

/-- Where a goroutine stands in `LockSession(key)`, its command batch and
`UnlockSession(key)`.  `start`: before `LockSession`; `creating`: the read of
`sessionLocker` under the read lock found no mutex; `ready mutex`: about to call
`mutex.Lock()`; `critical mutex`: `mutex.Lock()` has returned and the command batch
runs; `done unlocked`: `UnlockSession` has returned, having unlocked `unlocked`. -/
inductive LockPc where
  | start
  | creating
  | ready (mutex : Nat)
  | critical (mutex : Nat)
  | done (unlocked : Nat)
deriving DecidableEq, Inhabited

/-- The shared state: the map `sessionLocker` from session key to mutex, the
mutexes created so far (`true`: locked), and the position of every goroutine. -/
structure LockState where
  sessionLocker : List (Str × Nat)
  mutexes : List Bool
  pcs : List LockPc
deriving DecidableEq, Inhabited

/-- One atomic step of the goroutine `g`, all goroutines using the key `key`; `none`
when the goroutine cannot move (it waits for a locked mutex, it has finished, or the
runtime stops the program on the unlock of an unlocked mutex).  The steps are the
regions of `LockSession` and `UnlockSession` between which the locks of the map let
other goroutines run: the read of the map (lines 69-71), the creation and the store
of a new mutex (lines 74-77), `mutex.Lock()` (line 79), and the look-up and
`Unlock()` of `UnlockSession` (lines 87-89). -/
def lockStep (key : Str) (st : LockState) (g : Nat) : Option LockState :=
  match st.pcs[g]? with
  | none => none
  | some .start =>
    match mapGet st.sessionLocker key with
    | some mutex => some { st with pcs := st.pcs.set g (.ready mutex) }
    | none => some { st with pcs := st.pcs.set g .creating }
  | some .creating =>
    some { sessionLocker := mapSet st.sessionLocker key st.mutexes.length,
           mutexes := st.mutexes ++ [false],
           pcs := st.pcs.set g (.ready st.mutexes.length) }
  | some (.ready mutex) =>
    if st.mutexes[mutex]? = some false then
      some { st with mutexes := st.mutexes.set mutex true, pcs := st.pcs.set g (.critical mutex) }
    else none
  | some (.critical _) =>
    match mapGet st.sessionLocker key with
    | some mutex =>
      if st.mutexes[mutex]? = some true then
        some { st with mutexes := st.mutexes.set mutex false, pcs := st.pcs.set g (.done mutex) }
      else none
    | none => none
  | some (.done _) => none

/-- The state after the goroutines have moved in the order `schedule`. -/
def lockRun (key : Str) : LockState → List Nat → Option LockState
  | st, [] => some st
  | st, g :: rest =>
    match lockStep key st g with
    | none => none
    | some st1 => lockRun key st1 rest

/-- Two goroutines about to call `LockSession` on a key that was never used. -/
def twoCallers : LockState :=
  { sessionLocker := [], mutexes := [], pcs := [.start, .start] }

/-! ## Bulk dispatcher, lock key and dial time-out (`ark_ssh.go`, `ssh_session.go`) -/

/-- The key that `RunCmdWithBrand` passes to `LockSession` and `UnlockSession`:
`d.Username + "_" + d.Password + "_" + ipPort`, after the default port is applied. -/
def lockedKey (d : Device) : Str :=
  (withDefaultPort d).Username ++ ['_'] ++ (withDefaultPort d).Password ++ ['_'] ++
    ipPortOf (withDefaultPort d)

/-- The error that `createConnection` returns when its timer of 20 seconds fires
first: `errors.New("SSH Dial timeout" + ipPort)`. -/
def dialTimeoutError (ipPort : Str) : Str := "SSH Dial timeout".toList ++ ipPort

/-- The shared state while `BulkRunCmd` waits in `wg.Wait()`: the per-key locks of
the session manager with the position of every goroutine (the goroutine `g` works
on `devices[g]`), the slice of devices, the sessions of the manager, and for every
goroutine whether its call of `GetSession` and its command loop have run. -/
structure BulkState where
  locks : LockState
  devices : List Device
  manager : SessionManager
  ran : List Bool
deriving DecidableEq, Inhabited

/-- What a turn of one goroutine brings: a new state; nothing, when the goroutine
waits for a locked mutex or has called `wg.Done()`; or the end of the program, on
a panic that nothing recovers or on the unlock of an unlocked mutex. -/
inductive BulkStep where
  | next (st : BulkState)
  | blocked
  | fatal
deriving DecidableEq, Inhabited

/-- One turn of the goroutine `g` of `BulkRunCmd`, which runs `RunCmdWithBrand` on
`devices[g]` (lines 313-323).  Up to the return of `mutex.Lock()` the goroutine
takes the steps of `LockSession` on its key (line 165); holding the mutex it runs
the rest of `RunCmdWithBrand`, from `GetSession` to the return, as one step, and
leaves the record in place, the error being only logged; then the deferred
`UnlockSession` runs (line 166), after which `wg.Done()` is called.  The command
batches of two goroutines that hold two mutexes for one key are run one after the
other here, in the order of their turns; the locks do not depend on what the
batches do. -/
def bulkStep (w : World) (timeOut : Int) (st : BulkState) (g : Nat) : BulkStep :=
  match st.devices[g]?, st.locks.pcs[g]? with
  | some d, some (.critical _) =>
    if st.ran[g]? = some true then
      match lockStep (lockedKey d) st.locks g with
      | none => .fatal
      | some locks => .next { st with locks := locks }
    else
      match RunCmdWithBrand w st.manager d timeOut with
      | none => .fatal
      | some r =>
        .next { st with devices := st.devices.set g r.device, manager := r.manager,
                        ran := st.ran.set g true }
  | some d, some _ =>
    match lockStep (lockedKey d) st.locks g with
    | none => .blocked
    | some locks => .next { st with locks := locks }
  | _, _ => .blocked

/-- The state after the goroutines have been given their turns in the order
`schedule`; `none` when the program has ended on the way.  A goroutine that cannot
move stays where it is. -/
def bulkRun (w : World) (timeOut : Int) : BulkState → List Nat → Option BulkState
  | st, [] => some st
  | st, g :: rest =>
    match bulkStep w timeOut st g with
    | .next st1 => bulkRun w timeOut st1 rest
    | .blocked => bulkRun w timeOut st rest
    | .fatal => none

/-- How a call of `BulkRunCmd` stands: it has returned, with the slice of devices,
the sessions of the manager and the error; the program has ended; or the call still
waits in `wg.Wait()`. -/
inductive BulkOutcome where
  | returned (devices : List Device) (manager : SessionManager) (err : Option Str)
  | fatal
  | waiting
deriving DecidableEq, Inhabited

/-- The goroutine has called `wg.Done()`. -/
def isDone : LockPc → Bool
  | .done _ => true
  | _ => false

/-- Go `BulkRunCmd devices timeOut`, called when the map `sessionLocker` and the
mutexes of the session manager are `sessionLocker` and `mutexes`, after its
goroutines have been given their turns in the order `schedule`: after
`wg.Add(len(devices))` one goroutine is started for every device (lines 311-324),
`wg.Wait()` returns when all of them have called `wg.Done()` (line 325), and the
error returned is `nil` (line 326). -/
def BulkRunCmd (w : World) (m : SessionManager) (sessionLocker : List (Str × Nat))
    (mutexes : List Bool) (devices : List Device) (timeOut : Int) (schedule : List Nat) :
    BulkOutcome :=
  match bulkRun w timeOut
      { locks := { sessionLocker := sessionLocker, mutexes := mutexes,
                   pcs := devices.map (fun _ => LockPc.start) },
        devices := devices, manager := m, ran := devices.map (fun _ => false) } schedule with
  | none => .fatal
  | some st =>
    if st.locks.pcs.all isDone then .returned st.devices st.manager none else .waiting

/-! ## Specification-side definitions -/

/-- The failure categories in the order in which they are tried: the substring of
the error text and the status it gives. -/
def errorCategories : List (Str × Str) :=
  [ ("unable to authenticate".toList, "密码错误,IP为".toList),
    ("reset by peer".toList, "多次登录失败，设备拒绝连接,IP为".toList),
    ("timed out".toList, "登录验证连接超时,IP为".toList),
    ("connection refused".toList, "22端口未开,IP为".toList),
    ("timeout sending".toList, "发送命令连接超时,IP为".toList) ]

/-- The status of the first category whose substring the error text contains, or
else the unclassified status around the raw error text. -/
def firstCategoryStatus (err IP : Str) : Str :=
  match errorCategories.find? (fun c => Contains err c.1) with
  | some c => c.2 ++ IP
  | none => "其他错误:".toList ++ err ++ ",IP为".toList ++ IP

/-- The status that goes with the outcome `(text, ok)` of a prompt read: `success`
when the prompt matched, the `empty` status when it did not and no text came back,
the `incomplete` status when it did not and some text came back. -/
def threeCaseStatus (text : Str) (ok : Bool) : Str :=
  if ok then statusSuccess else if text = [] then statusEmpty else statusIncomplete

/-- The map of results once the outcomes `outcomes` of the commands `cmds` are
recorded one after the other, starting from `mapRes`: the command is the key, the
normalized text and the status of the outcome are the value. -/
def recordOutcomes :
    List Str → List (Str × Bool) → List (Str × OneCMDRes) → List (Str × OneCMDRes)
  | cmd :: cmds, (text, ok) :: outcomes, mapRes =>
    recordOutcomes cmds outcomes
      (mapSet mapRes cmd { RES := filterResult text cmd, Status := threeCaseStatus text ok })
  | _, _, mapRes => mapRes

/-- The lower-cased output of the vendor probe that `GetSSHBrand` reads on the
session `s`. -/
def probeText (w : World) (s : SSHSession) : Str :=
  w.ToLower (ReadChannelTiming 15 { s with inp := s.inp ++ brandProbes }).1.1

/-- The probe text carries a signature that is tested before the POSIX marker:
huawei, huarong, futurematrix, h3c, sangfor, anshi, "fit mode" or "fat mode". -/
def hasEarlySignature (result : Str) : Bool :=
  Contains result HUAWEI || Contains result HUARONG || Contains result FutureMatrix ||
  Contains result H3C || Contains result SANGFOR || Contains result AnShi ||
  Contains result "fit mode".toList || Contains result "fat mode".toList

/-- The probe text carries a signature that is tested after the POSIX marker:
dptech, "current privilege" or cisco. -/
def hasLateSignature (result : Str) : Bool :=
  Contains result DIPU || Contains result "current privilege".toList || Contains result CISCO

/-- An open session without a cached vendor whose device answers the probe with
`banner`. -/
def probeSession (banner : Str) : SSHSession :=
  { inp := [], out := [banner], brand := [], lastUseTime := 0, closed := false, polls := 0 }

/-- The chunk that the poll number `i` (from 0) of the session `s` returns. -/
def pollChunk (s : SSHSession) (i : Nat) : Str := s.out.getD i []

/-- The text accumulated over the first `k` polls of the session `s`. -/
def accumulated (s : SSHSession) (k : Nat) : Str := (s.out.take k).flatten

/-- The poll number `i` of the session `s` is not empty and the text accumulated
up to it, after `output`, matches `PROMPT`. -/
def matchAfter (output : Str) (s : SSHSession) (i : Nat) : Bool :=
  pollChunk s i != [] && promptMatch (output ++ accumulated s (i + 1))

/-- The session `s` after `k` polls. -/
def afterPolls (s : SSHSession) (k : Nat) : SSHSession :=
  { s with out := s.out.drop k, polls := s.polls + k }

/-- The poll number `i` of the session `s` is empty and either the text accumulated
before it, after `output`, contains one of the markers `expects`, or the poll before
it was empty as well (`isDelayed` tells so for the poll number 0). -/
def stopAfter (expects : List Str) (isDelayed : Bool) (output : Str) (s : SSHSession)
    (i : Nat) : Bool :=
  pollChunk s i == [] &&
    (expects.any (fun expect => Contains (output ++ accumulated s i) expect) ||
      (match i with
        | 0 => isDelayed
        | k + 1 => pollChunk s k == []))

/-- The session at the address `a` of `heap` was last used more than nine minutes
before `now`. -/
def expiredIn (now : Int) (heap : List SSHSession) (a : Nat) : Bool :=
  match heap[a]? with
  | some session => olderThanNineMinutes (now - session.lastUseTime)
  | none => false

/-! ## Sample inputs -/

/-- A world in which the user `admin` reaches a device that greets with a prompt,
answers the pagination command, stays silent for one second and then answers one
command; every other user is rejected. -/
def sampleWorld : World where
  ToLower := fun s => s.map Char.toLower
  now := 1000
  dial := fun user _ _ =>
    if user = "admin".toList then
      .ok (["Info: login\r\n<HW>".toList, [], "screen-length 0 temporary\r\n<HW>".toList] ++
        List.replicate 10 [] ++ ["dis clock\r\n2024-01-01\r\n<HW>".toList])
    else
      .error "ssh: handshake failed: ssh: unable to authenticate".toList

/-- The empty session manager. -/
def emptyManager : SessionManager := { heap := [], sessionCache := [] }

/-- A device record that asks twice for the clock, with a time-out of one second. -/
def sampleDevice (user : Str) : Device where
  IP := "10.0.0.1".toList
  Port := []
  Username := user
  Password := "pw".toList
  Brand := HUAWEI
  Cmds := ["dis clock".toList, "dis clock".toList]
  Timeout := 1
  SendStatus := []
  RawResult := []
  MapResult := []

/-- The session manager after `GetSession` has opened the session of `admin` on
the sample device. -/
def sampleManager : SessionManager where
  heap :=
    [ { inp := ["screen-length 0 temporary".toList],
        out := List.replicate 10 [] ++ ["dis clock\r\n2024-01-01\r\n<HW>".toList],
        brand := [], lastUseTime := 1000, closed := false, polls := 3 } ]
  sessionCache := [("admin_pw_10.0.0.1:22".toList, 0)]

/-- An open session whose device sends the chunks `chunks`, one for each poll. -/
def streamSession (chunks : List Str) : SSHSession :=
  { inp := [], out := chunks, brand := [], lastUseTime := 0, closed := false, polls := 0 }

/-- A session opened at the time `lastUseTime` (in nanoseconds) that has nothing to read. -/
def idleSession (lastUseTime : Int) : SSHSession :=
  { inp := [], out := [], brand := [], lastUseTime := lastUseTime, closed := false, polls := 0 }

/-- A manager with two cached sessions, last used at 0 s and at 600 s. -/
def twoSessionManager : SessionManager where
  heap := [idleSession 0, idleSession 600000000000]
  sessionCache := [("admin_pw_10.0.0.1:22".toList, 0), ("root_pw_10.0.0.2:22".toList, 1)]

/-- The sample world with the clock at 700 s. -/
def sweepWorld : World := { sampleWorld with now := 700000000000 }

/-- A device record at the address `ip` that asks once for the clock, with a
time-out of two seconds. -/
def clockDevice (ip user : Str) : Device where
  IP := ip
  Port := []
  Username := user
  Password := "pw".toList
  Brand := HUAWEI
  Cmds := ["dis clock".toList]
  Timeout := 2
  SendStatus := []
  RawResult := []
  MapResult := []

/-- Three devices, of which the second carries a user that the device rejects. -/
def threeDevices : List Device :=
  [clockDevice "10.0.0.1".toList "admin".toList, clockDevice "10.0.0.2".toList "guest".toList,
   clockDevice "10.0.0.3".toList "admin".toList]

/-- Two devices with the same user, password and address, as in `TestBulkRunCmd`. -/
def sameKeyDevices : List Device :=
  [clockDevice "10.0.0.1".toList "admin".toList, clockDevice "10.0.0.1".toList "admin".toList]

/-- A configuration dump with a line that tells when the configuration was last
changed, and with trailing spaces. -/
def sampleDump : Str :=
  "dis cur\r\nLast configuration was updated at 12:00  \x08 \r\nsysname X \r\n<HW>".toList

/-- A manager that caches the live session opened for the user `a` with the
password `b_c` on `10.0.0.1:22`. -/
def underscoreManager : SessionManager where
  heap := [streamSession ["<HW>".toList]]
  sessionCache := [(sessionKey "a".toList "b_c".toList "10.0.0.1:22".toList, 0)]

/-- A world in which no connection is established before the timer of
`createConnection` fires. -/
def timeoutWorld : World :=
  { sampleWorld with dial := fun _ _ ipPort => .error (dialTimeoutError ipPort) }

/-- A world in which the user `admin` reaches a device that answers the first
command with a prompt, the second with a text without prompt, and the third not at
all. -/
def mixedWorld : World where
  ToLower := fun s => s.map Char.toLower
  now := 1000
  dial := fun user _ _ =>
    if user = "admin".toList then
      .ok ["Info: login\r\n<HW>".toList, [], "screen-length 0 temporary\r\n<HW>".toList,
        "dis clock\r\n12:00\r\n<HW>".toList, "dis ver\r\nVRP".toList]
    else
      .error "ssh: handshake failed: ssh: unable to authenticate".toList

/-- A device record with three commands and a time-out of one second. -/
def threeCmdDevice : Device :=
  { sampleDevice "admin".toList with
    Cmds := ["dis clock".toList, "dis ver".toList, "dis cur".toList] }

/-- The session manager after `GetSession` has opened the session of `admin` in
`mixedWorld`. -/
def mixedManager : SessionManager where
  heap :=
    [ { inp := ["screen-length 0 temporary".toList],
        out := ["dis clock\r\n12:00\r\n<HW>".toList, "dis ver\r\nVRP".toList],
        brand := [], lastUseTime := 1000, closed := false, polls := 3 } ]
  sessionCache := [("admin_pw_10.0.0.1:22".toList, 0)]

/-! ## Lemmas on the text primitives -/

theorem HasPrefix_iff (s p : Str) : HasPrefix s p = true ↔ p <+: s := by
  induction s generalizing p with
  | nil =>
    cases p with
    | nil => simp [HasPrefix]
    | cons a p => simp [HasPrefix]
  | cons c s ih =>
    cases p with
    | nil => simp [HasPrefix]
    | cons a p =>
      simp only [HasPrefix, Bool.and_eq_true, beq_iff_eq, ih, List.cons_prefix_cons]
      constructor
      · rintro ⟨h1, h2⟩
        exact ⟨h1.symm, h2⟩
      · rintro ⟨h1, h2⟩
        exact ⟨h1.symm, h2⟩

theorem Contains_iff (s sub : Str) : Contains s sub = true ↔ sub <:+: s := by
  induction s with
  | nil =>
    cases sub with
    | nil => simp [Contains]
    | cons a p => simp [Contains]
  | cons c s ih =>
    simp only [Contains, Bool.or_eq_true, HasPrefix_iff, ih, List.infix_cons_iff]

theorem Contains_append_mid (a b c : Str) : Contains (a ++ b ++ c) b = true := by
  rw [Contains_iff]
  exact ⟨a, c, rfl⟩

theorem LastIndex_some_hasPrefix (s sub : Str) (i : Nat) (h : LastIndex s sub = some i) :
    sub <+: s.drop i := by
  induction s generalizing i with
  | nil =>
    cases sub with
    | nil => simp
    | cons a p => simp [LastIndex] at h
  | cons c s ih =>
    simp only [LastIndex] at h
    cases hl : LastIndex s sub with
    | some j =>
      rw [hl] at h
      simp only [Option.some.injEq] at h
      subst h
      simpa using ih j hl
    | none =>
      rw [hl] at h
      by_cases hp : HasPrefix (c :: s) sub = true
      · simp only [hp, if_true, Option.some.injEq] at h
        subst h
        simpa using (HasPrefix_iff _ _).1 hp
      · simp [hp] at h

theorem LastIndex_isSome_of_Contains (s sub : Str) (h : Contains s sub = true) :
    ∃ i, LastIndex s sub = some i := by
  induction s with
  | nil =>
    cases sub with
    | nil => exact ⟨0, by simp [LastIndex]⟩
    | cons a p => simp [Contains] at h
  | cons c s ih =>
    simp only [Contains, Bool.or_eq_true] at h
    simp only [LastIndex]
    cases hl : LastIndex s sub with
    | some j => exact ⟨j + 1, rfl⟩
    | none =>
      rcases h with h | h
      · exact ⟨0, by simp [h]⟩
      · obtain ⟨i, hi⟩ := ih h
        rw [hl] at hi
        cases hi

theorem dropWhile_append_keep (p : Char → Bool) (a b : Str) (x : Char) (hx : p x = false) :
    ∃ a1, (a ++ x :: b).dropWhile p = a1 ++ x :: b := by
  induction a with
  | nil => exact ⟨[], by simp [List.dropWhile, hx]⟩
  | cons y a ih =>
    by_cases hy : p y = true
    · obtain ⟨a1, h1⟩ := ih
      exact ⟨a1, by simp [List.dropWhile, hy, h1]⟩
    · exact ⟨y :: a, by simp [List.dropWhile, hy]⟩

/-- `TrimSpace` keeps a prefix that neither begins nor ends with white space. -/
theorem TrimSpace_keeps_prefix (cmd rest : Str) (hne : cmd ≠ [])
    (hhead : ∀ c ∈ cmd.head?, isSpace c = false)
    (hlast : ∀ c ∈ cmd.getLast?, isSpace c = false) :
    cmd <+: TrimSpace (cmd ++ rest) := by
  obtain ⟨c0, cs, rfl⟩ := List.exists_cons_of_ne_nil hne
  have h0 : isSpace c0 = false := hhead c0 (by simp)
  obtain ⟨ini, cl, hcl⟩ : ∃ ini cl, c0 :: cs = ini ++ [cl] :=
    ⟨(c0 :: cs).dropLast, (c0 :: cs).getLast (by simp), (List.dropLast_append_getLast _).symm⟩
  have hl : isSpace cl = false := by
    apply hlast
    rw [hcl]
    simp
  unfold TrimSpace
  have e1 : ((c0 :: cs) ++ rest).dropWhile isSpace = (c0 :: cs) ++ rest := by
    simp [List.dropWhile, h0]
  rw [e1, hcl]
  have e2 : (ini ++ [cl] ++ rest).reverse = rest.reverse ++ cl :: ini.reverse := by simp
  rw [e2]
  obtain ⟨a1, ha1⟩ := dropWhile_append_keep isSpace rest.reverse ini.reverse cl hl
  rw [ha1]
  refine ⟨a1.reverse, ?_⟩
  simp


/-! ## Lemmas on `Replace`, `TrimRight`, `TrimSpace` and `Split` -/

theorem replaceFrom_of_not_infix (old new s : Str) (h : ¬ old <:+: s) :
    replaceFrom old new 0 s = s := by
  induction s with
  | nil => rfl
  | cons c s ih =>
    have hp : HasPrefix (c :: s) old = false := by
      cases hh : HasPrefix (c :: s) old with
      | false => rfl
      | true => exact absurd ((HasPrefix_iff _ _).1 hh).isInfix h
    have hs : ¬ old <:+: s := fun hi => h (List.infix_cons hi)
    simp only [replaceFrom, hp, Bool.false_eq_true, if_false, ih hs]

theorem Replace_of_not_Contains (s old new : Str) (hne : old ≠ [])
    (h : Contains s old = false) : Replace s old new = s := by
  have hi : ¬ old <:+: s := by
    rw [← Contains_iff, h]
    simp
  unfold Replace
  cases old with
  | nil => exact absurd rfl hne
  | cons a l => simpa using replaceFrom_of_not_infix (a :: l) new s hi

theorem replaceFrom_skip_all (old new : Str) (k : Nat) (s : Str) (h : s.length ≤ k) :
    replaceFrom old new k s = [] := by
  induction s generalizing k with
  | nil => cases k <;> rfl
  | cons c s ih =>
    cases k with
    | zero => simp at h
    | succ k =>
      simp only [replaceFrom]
      exact ih k (by simpa using h)

theorem HasPrefix_self (s : Str) : HasPrefix s s = true :=
  (HasPrefix_iff s s).2 (List.prefix_refl s)

theorem Replace_self (s new : Str) (hne : s ≠ []) : Replace s s new = new := by
  cases s with
  | nil => exact absurd rfl hne
  | cons c s =>
    have hp := HasPrefix_self (c :: s)
    simp only [Replace, List.isEmpty_cons, Bool.false_eq_true, if_false, replaceFrom, hp, if_true,
      List.length_cons, Nat.add_sub_cancel]
    rw [replaceFrom_skip_all _ _ _ _ (Nat.le_refl _), List.append_nil]

/-- Every character of the result of a replacement comes from the text or from `new`. -/
theorem mem_replaceFrom (old new : Str) (k : Nat) (s : Str) (x : Char)
    (hx : x ∈ replaceFrom old new k s) : x ∈ s ∨ x ∈ new := by
  induction s generalizing k with
  | nil => simp [replaceFrom] at hx
  | cons c s ih =>
    cases k with
    | succ k =>
      simp only [replaceFrom] at hx
      rcases ih k hx with h | h
      · exact Or.inl (List.mem_cons_of_mem _ h)
      · exact Or.inr h
    | zero =>
      simp only [replaceFrom] at hx
      split at hx
      · rcases List.mem_append.1 hx with h | h
        · exact Or.inr h
        · rcases ih _ h with h | h
          · exact Or.inl (List.mem_cons_of_mem _ h)
          · exact Or.inr h
      · rcases List.mem_cons.1 hx with h | h
        · exact Or.inl (by simp [h])
        · rcases ih _ h with h | h
          · exact Or.inl (List.mem_cons_of_mem _ h)
          · exact Or.inr h

theorem TrimRight_eq_rdropWhile (s cutset : Str) :
    TrimRight s cutset = s.rdropWhile (fun c => cutset.contains c) := rfl

theorem TrimSpace_eq (s : Str) : TrimSpace s = (s.dropWhile isSpace).rdropWhile isSpace := rfl

theorem TrimRight_isPrefix (s cutset : Str) : TrimRight s cutset <+: s :=
  List.rdropWhile_prefix _ _

theorem TrimRight_getLast (s : Str) : (TrimRight s [' ']).getLast? ≠ some ' ' := by
  intro h
  have hne : TrimRight s [' '] ≠ [] := by
    intro h0
    rw [h0] at h
    cases h
  have := List.rdropWhile_last_not (fun c => [' '].contains c) s hne
  rw [List.getLast?_eq_getLast _ hne] at h
  simp only [Option.some.injEq] at h
  have h1 : (List.rdropWhile (fun c => [' '].contains c) s).getLast hne = ' ' := h
  rw [h1] at this
  simp at this

theorem TrimRight_of_getLast (s : Str) (h : s.getLast? ≠ some ' ') : TrimRight s [' '] = s := by
  rw [TrimRight_eq_rdropWhile, List.rdropWhile_eq_self_iff]
  intro hl hp
  apply h
  rw [List.getLast?_eq_getLast _ hl]
  simp only [List.contains_cons, List.contains_nil, Bool.or_false, beq_iff_eq] at hp
  rw [hp]

theorem TrimSpace_isInfix (s : Str) : TrimSpace s <:+: s :=
  (List.rdropWhile_prefix _ _).isInfix.trans (List.dropWhile_suffix _).isInfix

theorem Split_ne_nil (s : Str) (sep : Char) : Split s sep ≠ [] := by
  cases s with
  | nil => simp [Split]
  | cons c s =>
    simp only [Split]
    split
    · simp
    · split <;> simp

theorem Split_of_not_mem (l : Str) (sep : Char) (h : sep ∉ l) : Split l sep = [l] := by
  induction l with
  | nil => rfl
  | cons c l ih =>
    have hc : c ≠ sep := fun e => h (by simp [e])
    have hl : sep ∉ l := fun e => h (List.mem_cons_of_mem _ e)
    simp [Split, hc, ih hl]

theorem Split_append_sep (l rest : Str) (sep : Char) (h : sep ∉ l) :
    Split (l ++ sep :: rest) sep = l :: Split rest sep := by
  induction l with
  | nil => simp [Split]
  | cons c l ih =>
    have hc : c ≠ sep := fun e => h (by simp [e])
    have hl : sep ∉ l := fun e => h (List.mem_cons_of_mem _ e)
    simp [Split, hc, ih hl]

/-- A text has no separator, or it begins with a line that has none. -/
theorem exists_first_line (t : Str) (sep : Char) :
    sep ∉ t ∨ ∃ l rest, t = l ++ sep :: rest ∧ sep ∉ l := by
  induction t with
  | nil => exact Or.inl (by simp)
  | cons c t ih =>
    by_cases hc : c = sep
    · exact Or.inr ⟨[], t, by simp [hc], by simp⟩
    · rcases ih with h | ⟨l, rest, h1, h2⟩
      · left
        intro hm
        rcases List.mem_cons.1 hm with e | e
        · exact hc e.symm
        · exact h e
      · right
        refine ⟨c :: l, rest, by simp [h1], ?_⟩
        intro hm
        rcases List.mem_cons.1 hm with e | e
        · exact hc e.symm
        · exact h2 e

/-- Every line that `Split` returns is free of the separator. -/
theorem Split_lines_no_sep (t : Str) (sep : Char) : ∀ l ∈ Split t sep, sep ∉ l := by
  induction t with
  | nil => simp [Split]
  | cons c t ih =>
    intro l hl
    simp only [Split] at hl
    split at hl
    · rcases List.mem_cons.1 hl with e | e
      · simp [e]
      · exact ih l e
    · next hc =>
      split at hl
      · next hs => exact absurd hs (Split_ne_nil t sep)
      · next l0 ls hs =>
        have h0 : sep ∉ l0 := ih l0 (by simp [hs])
        rcases List.mem_cons.1 hl with e | e
        · subst e
          intro hm
          rcases List.mem_cons.1 hm with e1 | e1
          · exact hc e1.symm
          · exact h0 e1
        · exact ih l (by simp [hs, e])

theorem filterLines_eq (ls : List Str) (acc : Str) :
    filterLines ls acc = acc ++ ls.flatMap (fun l => filterLine l ++ ['\n']) := by
  induction ls generalizing acc with
  | nil => simp [filterLines]
  | cons l ls ih => simp [filterLines, ih, List.append_assoc]

/-- A line that keeps no artifact is left as it is by the loop body. -/
theorem filterLine_of_clean (l : Str) (hA : ¬ [' ', '\x08'] <:+: l)
    (hB : ¬ lastConfigMarker <:+: l) (hD : l.getLast? ≠ some ' ') : filterLine l = l := by
  have h1 : Replace l [' ', '\x08'] [] = l := by
    apply Replace_of_not_Contains _ _ _ (by simp)
    cases hc : Contains l [' ', '\x08'] with
    | false => rfl
    | true => exact absurd ((Contains_iff _ _).1 hc) hA
  have h3 : Contains l lastConfigMarker = false := by
    cases hc : Contains l lastConfigMarker with
    | false => rfl
    | true => exact absurd ((Contains_iff _ _).1 hc) hB
  simp only [filterLine, h1, TrimRight_of_getLast l hD, h3, Bool.false_eq_true, if_false]

/-- On a text without artifacts the loop of `filterResult` only appends a line end. -/
theorem flatMap_filterLine_of_clean (n : Nat) (t : Str) (hn : t.length ≤ n)
    (hA : ¬ [' ', '\x08'] <:+: t) (hB : ¬ lastConfigMarker <:+: t)
    (hC : ¬ [' ', '\n'] <:+: t) (hD : t.getLast? ≠ some ' ') :
    (Split t '\n').flatMap (fun l => filterLine l ++ ['\n']) = t ++ ['\n'] := by
  induction n generalizing t with
  | zero =>
    have : t = [] := List.length_eq_zero.1 (Nat.le_zero.1 hn)
    subst this
    decide
  | succ n ih =>
    rcases exists_first_line t '\n' with h | ⟨l, rest, ht, hl⟩
    · rw [Split_of_not_mem t '\n' h]
      simp [filterLine_of_clean t hA hB hD]
    · subst ht
      have hlin : l <:+: l ++ '\n' :: rest := (List.prefix_append _ _).isInfix
      have hrin : rest <:+: l ++ '\n' :: rest :=
        (List.suffix_cons _ _).isInfix.trans (List.suffix_append _ _).isInfix
      have hlD : l.getLast? ≠ some ' ' := by
        intro hlast
        apply hC
        obtain ⟨l0, hl0⟩ : ∃ l0, l = l0 ++ [' '] := by
          have hne : l ≠ [] := by
            intro h0
            rw [h0] at hlast
            cases hlast
          refine ⟨l.dropLast, ?_⟩
          have := List.dropLast_append_getLast hne
          rw [List.getLast?_eq_getLast _ hne] at hlast
          simp only [Option.some.injEq] at hlast
          rw [hlast] at this
          exact this.symm
        refine ⟨l0, rest, ?_⟩
        rw [hl0]
        simp
      have hrD : rest.getLast? ≠ some ' ' := by
        intro hlast
        apply hD
        have hne : rest ≠ [] := by
          intro h0
          rw [h0] at hlast
          cases hlast
        obtain ⟨b, r1, hr1⟩ := List.exists_cons_of_ne_nil hne
        subst hr1
        rw [List.getLast?_append, List.getLast?_cons_cons, hlast]
        rfl
      rw [Split_append_sep l rest '\n' hl]
      simp only [List.flatMap_cons]
      rw [filterLine_of_clean l (fun h => hA (h.trans hlin)) (fun h => hB (h.trans hlin)) hlD]
      rw [ih rest (by simp at hn; omega) (fun h => hA (h.trans hrin))
        (fun h => hB (h.trans hrin)) (fun h => hC (h.trans hrin)) hrD]
      simp

/-- What the body of the loop of `filterResult` returns on a line without line end:
a text without line end, that does not end with a space, and without the marker. -/
theorem filterLine_facts (l : Str) (hl : '\n' ∉ l) :
    '\n' ∉ filterLine l ∧ (filterLine l).getLast? ≠ some ' ' ∧
      ¬ lastConfigMarker <:+: filterLine l := by
  have h1 : '\n' ∉ Replace l [' ', '\x08'] [] := by
    intro hm
    simp only [Replace, List.isEmpty_cons, Bool.false_eq_true, if_false] at hm
    rcases mem_replaceFrom _ _ _ _ _ hm with h | h
    · exact hl h
    · simp at h
  have h2 : '\n' ∉ TrimRight (Replace l [' ', '\x08'] []) [' '] :=
    fun hm => h1 ((TrimRight_isPrefix _ _).subset hm)
  unfold filterLine
  simp only
  split
  · next hc =>
    have hne : TrimRight (Replace l [' ', '\x08'] []) [' '] ≠ [] := by
      intro h0
      rw [h0] at hc
      revert hc
      decide
    rw [Replace_self _ _ hne]
    refine ⟨by decide, by decide, ?_⟩
    rw [← Contains_iff]
    decide
  · next hc =>
    refine ⟨h2, TrimRight_getLast _, ?_⟩
    rw [← Contains_iff]
    exact hc

/-- An occurrence of `p` in `A ++ c :: B` lies in `A`, lies in `B`, or goes over `c`. -/
theorem infix_append_cons (p A B : Str) (c : Char) (h : p <:+: A ++ c :: B) :
    p <:+: A ∨ p <:+: B ∨ ∃ p1 p2, p = p1 ++ c :: p2 ∧ p1 <:+ A ∧ p2 <+: B := by
  induction A generalizing p with
  | nil =>
    rw [List.nil_append, List.infix_cons_iff] at h
    rcases h with h | h
    · cases p with
      | nil => exact Or.inl (List.nil_infix)
      | cons a p =>
        rw [List.cons_prefix_cons] at h
        obtain ⟨ha, hp⟩ := h
        subst ha
        exact Or.inr (Or.inr ⟨[], p, rfl, List.nil_suffix, hp⟩)
    · exact Or.inr (Or.inl h)
  | cons a A ih =>
    rw [List.cons_append, List.infix_cons_iff] at h
    rcases h with h | h
    · cases p with
      | nil => exact Or.inl (List.nil_infix)
      | cons b p =>
        rw [List.cons_prefix_cons] at h
        obtain ⟨hb, hp⟩ := h
        subst hb
        -- `p` is a prefix of `A ++ c :: B`
        rcases List.prefix_or_prefix_of_prefix hp (List.prefix_append A (c :: B)) with h1 | h1
        · exact Or.inl ((List.cons_prefix_cons.2 ⟨rfl, h1⟩).isInfix)
        · obtain ⟨q, hq⟩ := h1
          subst hq
          rw [List.prefix_append_right_inj] at hp
          cases q with
          | nil =>
            rw [List.append_nil]
            exact Or.inl (List.infix_refl _)
          | cons d q =>
            rw [List.cons_prefix_cons] at hp
            obtain ⟨hd, hq⟩ := hp
            subst hd
            exact Or.inr (Or.inr ⟨b :: A, q, by simp, List.suffix_refl _, hq⟩)
    · rcases ih p h with h1 | h1 | ⟨p1, p2, h1, h2, h3⟩
      · exact Or.inl (List.infix_cons h1)
      · exact Or.inr (Or.inl h1)
      · exact Or.inr (Or.inr ⟨p1, p2, h1, h2.trans (List.suffix_cons _ _), h3⟩)

/-- The text built from lines without line end, none of which ends with a space or
holds the marker, holds neither the marker nor a space before a line end. -/
theorem flatMap_lines_facts (ls : List Str)
    (h : ∀ l ∈ ls, '\n' ∉ l ∧ l.getLast? ≠ some ' ' ∧ ¬ lastConfigMarker <:+: l) :
    ¬ lastConfigMarker <:+: ls.flatMap (fun l => l ++ ['\n']) ∧
    ¬ [' ', '\n'] <:+: ls.flatMap (fun l => l ++ ['\n']) := by
  induction ls with
  | nil =>
    refine ⟨?_, ?_⟩
    · rw [← Contains_iff]
      decide
    · rw [← Contains_iff]
      decide
  | cons l ls ih =>
    obtain ⟨h1, h2, h3⟩ := h l (by simp)
    obtain ⟨ih1, ih2⟩ := ih (fun l1 hl1 => h l1 (List.mem_cons_of_mem _ hl1))
    simp only [List.flatMap_cons, List.append_assoc, List.singleton_append]
    refine ⟨?_, ?_⟩
    · intro hin
      rcases infix_append_cons _ _ _ _ hin with hA | hB | ⟨p1, p2, hp, _, _⟩
      · exact h3 hA
      · exact ih1 hB
      · have : '\n' ∈ lastConfigMarker := by
          rw [hp]
          simp
        revert this
        decide
    · intro hin
      rcases infix_append_cons _ _ _ _ hin with hA | hB | ⟨p1, p2, hp, hs, _⟩
      · exact h1 (hA.subset (by simp))
      · exact ih2 hB
      · -- the occurrence goes over the line end: the line ends with a space
        cases p1 with
        | nil => simp at hp
        | cons x p1 =>
          simp only [List.cons_append, List.cons.injEq] at hp
          obtain ⟨hx, hp⟩ := hp
          subst hx
          cases p1 with
          | nil =>
            obtain ⟨u, hu⟩ := hs
            apply h2
            rw [← hu]
            simp
          | cons y p1 =>
            simp only [List.cons_append, List.cons.injEq] at hp
            obtain ⟨_, hp⟩ := hp
            cases p1 <;> simp at hp

/-- The text of `filterResult` before the echo is looked for: it ends with a line
end and holds neither the marker nor a space before a line end. -/
theorem normalizeLines_facts (r : Str) :
    (normalizeLines r).getLast? = some '\n' ∧
    ¬ lastConfigMarker <:+: normalizeLines r ∧
    ¬ [' ', '\n'] <:+: normalizeLines r := by
  have hX : normalizeLines r =
      ((Split (Replace (Replace r ['\r', '\r', '\n'] ['\r', '\n']) [' ', '\r', '\n']
        ['\r', '\n']) '\n').map filterLine).flatMap (fun l => l ++ ['\n']) := by
    simp only [normalizeLines, filterLines_eq, List.nil_append, List.flatMap_map]
  rw [hX]
  generalize hls : Split (Replace (Replace r ['\r', '\r', '\n'] ['\r', '\n']) [' ', '\r', '\n']
    ['\r', '\n']) '\n' = ls
  have hne : ls ≠ [] := by
    rw [← hls]
    exact Split_ne_nil _ _
  have hfacts : ∀ l ∈ ls.map filterLine,
      '\n' ∉ l ∧ l.getLast? ≠ some ' ' ∧ ¬ lastConfigMarker <:+: l := by
    intro l hl
    obtain ⟨l0, hl0, rfl⟩ := List.mem_map.1 hl
    apply filterLine_facts
    rw [← hls] at hl0
    exact Split_lines_no_sep _ _ l0 hl0
  obtain ⟨f1, f2⟩ := flatMap_lines_facts _ hfacts
  refine ⟨?_, f1, f2⟩
  obtain ⟨ini, lastl, hini⟩ : ∃ ini lastl, ls.map filterLine = ini ++ [lastl] := by
    have hne2 : ls.map filterLine ≠ [] := by simpa using hne
    exact ⟨_, _, (List.dropLast_append_getLast hne2).symm⟩
  rw [hini]
  simp

theorem LastIndex_none_not_infix (s p : Str) (h : LastIndex s p = none) : ¬ p <:+: s := by
  intro hin
  obtain ⟨i, hi⟩ := LastIndex_isSome_of_Contains s p ((Contains_iff _ _).2 hin)
  rw [h] at hi
  cases hi

/-- No occurrence of a non-empty `p` begins after the index that `LastIndex` returns. -/
theorem LastIndex_some_last (s p : Str) (i : Nat) (hp : p ≠ []) (h : LastIndex s p = some i) :
    ∀ j, i < j → ¬ p <+: s.drop j := by
  induction s generalizing i with
  | nil =>
    cases p with
    | nil => exact absurd rfl hp
    | cons a p => simp [LastIndex] at h
  | cons c s ih =>
    intro j hj hpre
    obtain ⟨j1, rfl⟩ : ∃ j1, j = j1 + 1 := ⟨j - 1, by omega⟩
    rw [List.drop_succ_cons] at hpre
    simp only [LastIndex] at h
    cases hl : LastIndex s p with
    | some k =>
      rw [hl] at h
      simp only [Option.some.injEq] at h
      exact ih k hl j1 (by omega) hpre
    | none =>
      exact LastIndex_none_not_infix s p hl (hpre.isInfix.trans (List.drop_suffix _ _).isInfix)

theorem LastIndex_eq_zero (s p : Str) (h0 : p <+: s)
    (hlast : ∀ j, 0 < j → ¬ p <+: s.drop j) : LastIndex s p = some 0 := by
  obtain ⟨k, hk⟩ := LastIndex_isSome_of_Contains s p ((Contains_iff _ _).2 h0.isInfix)
  have hpre := LastIndex_some_hasPrefix s p k hk
  cases k with
  | zero => exact hk
  | succ k => exact absurd hpre (hlast (k + 1) (Nat.succ_pos k))

/-- An occurrence of `c ++ "\r"` in a text followed by a line end lies in the text. -/
theorem echo_infix_of_append_newline (c t : Str) (h : c ++ ['\r'] <:+: t ++ ['\n']) :
    c ++ ['\r'] <:+: t := by
  rcases infix_append_cons _ _ _ _ h with h1 | h1 | ⟨p1, p2, hp, _, h2⟩
  · exact h1
  · have : c ++ ['\r'] = [] := List.infix_nil.1 h1
    simp at this
  · have hp2 : p2 = [] := List.prefix_nil.1 h2
    subst hp2
    have := congrArg List.getLast? hp
    simp at this

theorem TrimSpace_head (s : Str) (x : Char) (rest : Str) (h : TrimSpace s = x :: rest) :
    isSpace x = false := by
  have hpre : x :: rest <+: s.dropWhile isSpace := by
    rw [← h, TrimSpace_eq]
    exact List.rdropWhile_prefix _ _
  obtain ⟨u, hu⟩ := hpre
  have hne : s.dropWhile isSpace ≠ [] := by
    rw [← hu]
    simp
  have := List.head_dropWhile_not isSpace s hne
  simp only [← hu, List.cons_append, List.head_cons] at this
  exact this

theorem TrimSpace_getLast (s : Str) : (TrimSpace s).getLast? ≠ some ' ' := by
  intro h
  have hne : TrimSpace s ≠ [] := by
    intro h0
    rw [h0] at h
    cases h
  have := List.rdropWhile_last_not isSpace (s.dropWhile isSpace) hne
  rw [List.getLast?_eq_getLast _ hne] at h
  simp only [Option.some.injEq] at h
  have h1 : (List.rdropWhile isSpace (s.dropWhile isSpace)).getLast hne = ' ' := h
  rw [h1] at this
  exact this (by decide)

theorem TrimSpace_append_newline (s : Str) (hne : TrimSpace s ≠ []) :
    TrimSpace (TrimSpace s ++ ['\n']) = TrimSpace s := by
  obtain ⟨x, rest, hx⟩ := List.exists_cons_of_ne_nil hne
  have hsp := TrimSpace_head s x rest hx
  have hd : (TrimSpace s ++ ['\n']).dropWhile isSpace = TrimSpace s ++ ['\n'] := by
    rw [hx]
    simp [List.dropWhile, hsp]
  rw [TrimSpace_eq (TrimSpace s ++ ['\n']), hd,
    List.rdropWhile_concat_pos isSpace _ '\n' (by decide), TrimSpace_eq,
    List.rdropWhile_idempotent]

/-! ## Lemmas on sessions -/

theorem cmdStatus_cases (RES : Str) (ok : Bool) :
    cmdStatus RES ok =
      if ok then statusSuccess else if RES = [] then statusEmpty else statusIncomplete := by
  cases ok <;> cases RES <;> simp [cmdStatus]

theorem cmdStatus_ne_unknown (RES : Str) (ok : Bool) : cmdStatus RES ok ≠ statusUnknown := by
  rw [cmdStatus_cases]
  split
  · decide
  · split <;> decide

theorem mapGet_mapSet {α : Type} (m : List (Str × α)) (k : Str) (v : α) :
    mapGet (mapSet m k v) k = some v := by
  induction m with
  | nil => simp [mapSet, mapGet]
  | cons e m ih =>
    obtain ⟨k1, v1⟩ := e
    by_cases h : k1 = k
    · simp [mapSet, mapGet, h]
    · simp [mapSet, mapGet, h, ih]

theorem WriteChannel_open (s : SSHSession) (cmds : List Str) (h : s.closed = false) :
    WriteChannel s cmds = some { s with inp := s.inp ++ cmds } := by
  simp [WriteChannel, h]

theorem readChannelData_closed (s : SSHSession) : (readChannelData s).2.closed = s.closed := by
  unfold readChannelData
  split <;> rfl

theorem readTimingLoop_closed (n : Nat) (output : Str) (s : SSHSession) :
    (readTimingLoop n output s).2.closed = s.closed := by
  induction n generalizing output s with
  | zero => rfl
  | succ n ih =>
    simp only [readTimingLoop]
    split
    · split
      · exact readChannelData_closed s
      · rw [ih]
        exact readChannelData_closed s
    · rw [ih]
      exact readChannelData_closed s

theorem ReadChannelTiming_closed (timeout : Int) (s : SSHSession) :
    (ReadChannelTiming timeout s).2.closed = s.closed :=
  readTimingLoop_closed _ _ _

theorem readExpectLoop_closed (expects : List Str) (n : Nat) (d : Bool) (output : Str)
    (s : SSHSession) : (readExpectLoop expects n d output s).2.closed = s.closed := by
  induction n generalizing d output s with
  | zero => rfl
  | succ n ih =>
    simp only [readExpectLoop]
    split
    · rw [ih]
      exact readChannelData_closed s
    · split
      · exact readChannelData_closed s
      · split
        · rw [ih]
          exact readChannelData_closed s
        · exact readChannelData_closed s

theorem ReadChannelExpect_closed (timeout : Int) (expects : List Str) (s : SSHSession) :
    (ReadChannelExpect timeout expects s).2.closed = s.closed :=
  readExpectLoop_closed _ _ _ _ _

/-- The command loop on an open session does not panic; it counts the matched
reads and makes one read for each command. -/
theorem runCmds_open (timeOut : Int) (cmds : List Str) (s : SSHSession) (acc : CmdLoop)
    (h : s.closed = false) :
    ∃ acc1 s1, runCmds timeOut cmds s acc = some (acc1, s1) ∧ s1.closed = false ∧
      acc1.successNum = acc.successNum + (readOutcomes timeOut cmds s).countP (fun o => o.2) ∧
      (readOutcomes timeOut cmds s).length = cmds.length := by
  induction cmds generalizing s acc with
  | nil => exact ⟨acc, s, rfl, h, by simp [readOutcomes], rfl⟩
  | cons cmd rest ih =>
    have hw := WriteChannel_open s [cmd] h
    have hc : (ReadChannelTiming timeOut { s with inp := s.inp ++ [cmd] }).2.closed = false := by
      rw [ReadChannelTiming_closed]
      exact h
    simp only [runCmds, readOutcomes, hw]
    obtain ⟨acc1, s1, h1, h2, h3, h4⟩ := ih _
      { successNum :=
          if (ReadChannelTiming timeOut { s with inp := s.inp ++ [cmd] }).1.2 then
            acc.successNum + 1 else acc.successNum,
        rawRes := acc.rawRes ++
          filterResult (ReadChannelTiming timeOut { s with inp := s.inp ++ [cmd] }).1.1 cmd,
        mapRes := mapSet acc.mapRes cmd
          { RES := filterResult (ReadChannelTiming timeOut { s with inp := s.inp ++ [cmd] }).1.1 cmd,
            Status := cmdStatus (ReadChannelTiming timeOut { s with inp := s.inp ++ [cmd] }).1.1
              (ReadChannelTiming timeOut { s with inp := s.inp ++ [cmd] }).1.2 } } hc
    refine ⟨acc1, s1, h1, h2, ?_, ?_⟩
    · rw [h3]
      simp only [List.countP_cons]
      cases (ReadChannelTiming timeOut { s with inp := s.inp ++ [cmd] }).1.2 <;> simp
      omega
    · simp [h4]

theorem GetSSHBrand_closed (w : World) (s : SSHSession) :
    (GetSSHBrand w s).2.closed = s.closed := by
  unfold GetSSHBrand
  split
  · rfl
  · split
    · rfl
    · next s1 hw =>
      simp only [WriteChannel] at hw
      split at hw
      · cases hw
      · simp only [Option.some.injEq] at hw
        subst hw
        simp only [ReadChannelTiming_closed]

theorem CheckSelf_closed (s : SSHSession) : (CheckSelf s).2.closed = s.closed := by
  unfold CheckSelf
  split
  · rfl
  · next s1 hw =>
    simp only [WriteChannel] at hw
    split at hw
    · cases hw
    · simp only [Option.some.injEq] at hw
      subst hw
      simp only [ReadChannelExpect_closed]

theorem CheckSelf_true_open (s : SSHSession) (h : (CheckSelf s).1 = true) : s.closed = false := by
  unfold CheckSelf at h
  split at h
  · cases h
  · next s1 hw =>
    simp only [WriteChannel] at hw
    split at hw
    · cases hw
    · next hc =>
      simpa using hc

theorem initSession_open (w : World) (s : SSHSession) (brand : Str) (h : s.closed = false) :
    ∃ s1, initSession w s brand = some s1 ∧ s1.closed = false := by
  have hd : (if brand = [] then GetSSHBrand w s else (brand, s)).2.closed = false := by
    split
    · rw [GetSSHBrand_closed]
      exact h
    · exact h
  unfold initSession
  simp only
  generalize (if brand = [] then GetSSHBrand w s else (brand, s)) = det at hd ⊢
  cases hn : noPageCmds det.1 with
  | none => exact ⟨_, rfl, hd⟩
  | some cmds =>
    simp only [WriteChannel_open _ _ hd]
    refine ⟨_, rfl, ?_⟩
    rw [ReadChannelTiming_closed]
    exact hd

theorem NewSSHSession_open (w : World) (user password ipPort : Str) (s : SSHSession)
    (h : NewSSHSession w user password ipPort = .ok s) : s.closed = false := by
  unfold NewSSHSession at h
  split at h
  · cases h
  · simp only [Except.ok.injEq] at h
    subst h
    simp only [ReadChannelExpect_closed]

/-- What `updateSession` does, by the outcome of `NewSSHSession`. -/
theorem updateSession_cases (w : World) (m : SessionManager) (user password ipPort brand : Str) :
    (∃ err, NewSSHSession w user password ipPort = .error err ∧
      updateSession w m user password ipPort brand = some (some err, m)) ∨
    (∃ s0 s1, NewSSHSession w user password ipPort = .ok s0 ∧
      initSession w s0 brand = some s1 ∧ s1.closed = false ∧
      updateSession w m user password ipPort brand =
        some (none, SetSessionCache { m with heap := m.heap ++ [s1] }
          (sessionKey user password ipPort) m.heap.length)) := by
  unfold updateSession
  cases hn : NewSSHSession w user password ipPort with
  | error err => exact Or.inl ⟨err, rfl, rfl⟩
  | ok s0 =>
    obtain ⟨s1, h1, h2⟩ := initSession_open w s0 brand (NewSSHSession_open _ _ _ _ _ hn)
    refine Or.inr ⟨s0, s1, rfl, h1, h2, ?_⟩
    simp only [h1]

/-- A session that `GetSession` hands out is in the heap and open. -/
theorem GetSession_ok_open (w : World) (m : SessionManager) (user password ipPort brand : Str)
    (a : Option Nat) (m1 : SessionManager)
    (h : GetSession w m user password ipPort brand = some (.ok a, m1)) :
    ∃ a1 s, a = some a1 ∧ m1.heap[a1]? = some s ∧ s.closed = false := by
  have fresh : ∀ m0 : SessionManager,
      (match updateSession w m0 user password ipPort brand with
        | none => none
        | some (some err, m2) => some (Except.error err, m2)
        | some (none, m2) =>
          some (Except.ok (GetSessionCache m2 (sessionKey user password ipPort)), m2))
        = some (.ok a, m1) →
      ∃ a1 s, a = some a1 ∧ m1.heap[a1]? = some s ∧ s.closed = false := by
    intro m0 h0
    rcases updateSession_cases w m0 user password ipPort brand with
      ⟨err, _, hu⟩ | ⟨s0, s1, _, _, hcl, hu⟩
    · rw [hu] at h0
      cases h0
    · rw [hu] at h0
      simp only [Option.some.injEq, Prod.mk.injEq, Except.ok.injEq] at h0
      obtain ⟨ha, hm⟩ := h0
      subst hm
      refine ⟨m0.heap.length, s1, ?_, ?_, hcl⟩
      · rw [← ha]
        simp [GetSessionCache, SetSessionCache, mapGet_mapSet]
      · simp [SetSessionCache]
  unfold GetSession at h
  simp only at h
  split at h
  · exact fresh _ h
  · next a0 _ =>
    split at h
    · exact fresh _ h
    · next session hs =>
      split at h
      · next hck =>
        simp only [Option.some.injEq, Prod.mk.injEq, Except.ok.injEq] at h
        obtain ⟨ha, hm⟩ := h
        subst hm
        refine ⟨a0, UpdateLastUseTime w.now (CheckSelf session).2, ha.symm, ?_, ?_⟩
        · have hlt : a0 < m.heap.length := by
            rcases List.getElem?_eq_some_iff.1 hs with ⟨hlt, _⟩
            exact hlt
          simp [hlt]
        · simp only [UpdateLastUseTime]
          rw [CheckSelf_closed]
          exact CheckSelf_true_open _ hck
      · exact fresh _ h

theorem cmdStatus_eq_threeCaseStatus (RES : Str) (ok : Bool) :
    cmdStatus RES ok = threeCaseStatus RES ok := by
  rw [cmdStatus_cases]
  rfl

theorem threeCaseStatus_mem (text : Str) (ok : Bool) :
    threeCaseStatus text ok = statusSuccess ∨ threeCaseStatus text ok = statusEmpty ∨
      threeCaseStatus text ok = statusIncomplete := by
  unfold threeCaseStatus
  split
  · exact Or.inl rfl
  · split
    · exact Or.inr (Or.inl rfl)
    · exact Or.inr (Or.inr rfl)

theorem mapGet_mapSet_ne {α : Type} (m : List (Str × α)) (k k1 : Str) (v : α) (h : k ≠ k1) :
    mapGet (mapSet m k v) k1 = mapGet m k1 := by
  induction m with
  | nil => simp [mapSet, mapGet, h]
  | cons e m ih =>
    obtain ⟨k0, v0⟩ := e
    by_cases h0 : k0 = k
    · subst h0
      simp [mapSet, mapGet, h]
    · by_cases h1 : k0 = k1
      · subst h1
        simp [mapSet, mapGet, h0]
      · simp [mapSet, mapGet, h0, h1, ih]

theorem mem_mapSet {α : Type} (m : List (Str × α)) (k : Str) (v : α) (e : Str × α)
    (h : e ∈ mapSet m k v) : e ∈ m ∨ e = (k, v) := by
  induction m with
  | nil =>
    simp only [mapSet, List.mem_singleton] at h
    exact Or.inr h
  | cons e0 m ih =>
    obtain ⟨k0, v0⟩ := e0
    by_cases h0 : k0 = k
    · simp only [mapSet, h0, if_true, List.mem_cons] at h
      rcases h with h | h
      · exact Or.inr h
      · exact Or.inl (List.mem_cons_of_mem _ h)
    · simp only [mapSet, h0, if_false, List.mem_cons] at h
      rcases h with h | h
      · exact Or.inl (by simp [h])
      · rcases ih h with h1 | h1
        · exact Or.inl (List.mem_cons_of_mem _ h1)
        · exact Or.inr h1

/-- The command loop on an open session records the outcome of every command. -/
theorem runCmds_mapRes (timeOut : Int) (cmds : List Str) (s : SSHSession) (acc : CmdLoop)
    (h : s.closed = false) :
    ∃ acc1 s1, runCmds timeOut cmds s acc = some (acc1, s1) ∧
      acc1.mapRes = recordOutcomes cmds (readOutcomes timeOut cmds s) acc.mapRes := by
  induction cmds generalizing s acc with
  | nil => exact ⟨acc, s, rfl, rfl⟩
  | cons cmd rest ih =>
    have hw := WriteChannel_open s [cmd] h
    have hc : (ReadChannelTiming timeOut { s with inp := s.inp ++ [cmd] }).2.closed = false := by
      rw [ReadChannelTiming_closed]
      exact h
    simp only [runCmds, readOutcomes, hw]
    obtain ⟨acc1, s1, h1, h2⟩ := ih _
      { successNum :=
          if (ReadChannelTiming timeOut { s with inp := s.inp ++ [cmd] }).1.2 then
            acc.successNum + 1 else acc.successNum,
        rawRes := acc.rawRes ++
          filterResult (ReadChannelTiming timeOut { s with inp := s.inp ++ [cmd] }).1.1 cmd,
        mapRes := mapSet acc.mapRes cmd
          { RES := filterResult (ReadChannelTiming timeOut { s with inp := s.inp ++ [cmd] }).1.1 cmd,
            Status := cmdStatus (ReadChannelTiming timeOut { s with inp := s.inp ++ [cmd] }).1.1
              (ReadChannelTiming timeOut { s with inp := s.inp ++ [cmd] }).1.2 } } hc
    refine ⟨acc1, s1, h1, ?_⟩
    rw [h2, cmdStatus_eq_threeCaseStatus]
    rfl

theorem recordOutcomes_status (cmds : List Str) (outcomes : List (Str × Bool))
    (m : List (Str × OneCMDRes))
    (hm : ∀ e ∈ m, e.2.Status = statusSuccess ∨ e.2.Status = statusEmpty ∨
      e.2.Status = statusIncomplete) :
    ∀ e ∈ recordOutcomes cmds outcomes m, e.2.Status = statusSuccess ∨
      e.2.Status = statusEmpty ∨ e.2.Status = statusIncomplete := by
  induction cmds generalizing outcomes m with
  | nil => simpa [recordOutcomes] using hm
  | cons cmd cmds ih =>
    cases outcomes with
    | nil => simpa [recordOutcomes] using hm
    | cons o outcomes =>
      obtain ⟨text, ok⟩ := o
      simp only [recordOutcomes]
      apply ih
      intro e he
      rcases mem_mapSet _ _ _ _ he with h | h
      · exact hm e h
      · subst h
        exact threeCaseStatus_mem text ok

theorem mapGet_recordOutcomes_of_not_mem (cmds : List Str) (outcomes : List (Str × Bool))
    (m : List (Str × OneCMDRes)) (cmd : Str) (h : cmd ∉ cmds) :
    mapGet (recordOutcomes cmds outcomes m) cmd = mapGet m cmd := by
  induction cmds generalizing outcomes m with
  | nil => simp [recordOutcomes]
  | cons c cmds ih =>
    cases outcomes with
    | nil => simp [recordOutcomes]
    | cons o outcomes =>
      obtain ⟨text, ok⟩ := o
      simp only [recordOutcomes]
      rw [ih _ _ (fun hm => h (List.mem_cons_of_mem _ hm))]
      exact mapGet_mapSet_ne _ _ _ _ (fun e => h (by simp [e]))

/-- The entry of a command is the record of the outcome of its last run. -/
theorem mapGet_recordOutcomes (cmds : List Str) (outcomes : List (Str × Bool))
    (m : List (Str × OneCMDRes)) (i : Nat) (cmd text : Str) (ok : Bool)
    (hc : cmds[i]? = some cmd) (ho : outcomes[i]? = some (text, ok))
    (hlast : ∀ j, i < j → cmds[j]? ≠ some cmd) :
    mapGet (recordOutcomes cmds outcomes m) cmd
      = some { RES := filterResult text cmd, Status := threeCaseStatus text ok } := by
  induction cmds generalizing outcomes m i with
  | nil => simp at hc
  | cons c cmds ih =>
    cases outcomes with
    | nil => simp at ho
    | cons o outcomes =>
      obtain ⟨t0, ok0⟩ := o
      simp only [recordOutcomes]
      cases i with
      | zero =>
        simp only [List.getElem?_cons_zero, Option.some.injEq] at hc ho
        subst hc
        simp only [Prod.mk.injEq] at ho
        obtain ⟨ht, hk⟩ := ho
        subst ht
        subst hk
        have hnot : c ∉ cmds := by
          intro hm
          obtain ⟨j, hj⟩ := List.getElem?_of_mem hm
          exact hlast (j + 1) (Nat.succ_pos j) (by simpa using hj)
        rw [mapGet_recordOutcomes_of_not_mem _ _ _ _ hnot]
        exact mapGet_mapSet _ _ _
      | succ i =>
        simp only [List.getElem?_cons_succ] at hc ho
        apply ih _ _ i hc ho
        intro j hj
        have := hlast (j + 1) (Nat.succ_lt_succ hj)
        simpa using this

/-! ## Lemmas on the polling loops -/

theorem readChannelData_eq (s : SSHSession) :
    readChannelData s = (pollChunk s 0, afterPolls s 1) := by
  unfold readChannelData pollChunk afterPolls
  cases h : s.out with
  | nil => simp
  | cons c rest => simp

theorem pollChunk_afterPolls (s : SSHSession) (i : Nat) :
    pollChunk (afterPolls s 1) i = pollChunk s (i + 1) := by
  unfold pollChunk afterPolls
  cases h : s.out with
  | nil => simp
  | cons c rest => simp

theorem accumulated_succ (s : SSHSession) (k : Nat) :
    accumulated s (k + 1) = pollChunk s 0 ++ accumulated (afterPolls s 1) k := by
  unfold accumulated pollChunk afterPolls
  cases h : s.out with
  | nil => simp
  | cons c rest => simp

theorem afterPolls_afterPolls (s : SSHSession) (k : Nat) :
    afterPolls (afterPolls s 1) k = afterPolls s (k + 1) := by
  unfold afterPolls
  cases h : s.out with
  | nil => simp [Nat.add_comm, Nat.add_left_comm, Nat.add_assoc]
  | cons c rest => simp [Nat.add_comm, Nat.add_left_comm, Nat.add_assoc]

theorem matchAfter_succ (output : Str) (s : SSHSession) (i : Nat) :
    matchAfter output s (i + 1) = matchAfter (output ++ pollChunk s 0) (afterPolls s 1) i := by
  unfold matchAfter
  rw [pollChunk_afterPolls, accumulated_succ s (i + 1), List.append_assoc]

/-- The loop of `ReadChannelTiming` with `n` iterations left stops at the first
poll that matches, or else after `n` polls. -/
theorem readTimingLoop_spec (n : Nat) (output : Str) (s : SSHSession) :
    (∃ i, i < n ∧ matchAfter output s i = true ∧ (∀ j, j < i → matchAfter output s j = false) ∧
      readTimingLoop n output s = ((output ++ accumulated s (i + 1), true), afterPolls s (i + 1)))
    ∨ ((∀ j, j < n → matchAfter output s j = false) ∧
      readTimingLoop n output s = ((output ++ accumulated s n, false), afterPolls s n)) := by
  induction n generalizing output s with
  | zero =>
    right
    refine ⟨fun j hj => absurd hj (Nat.not_lt_zero j), ?_⟩
    simp [readTimingLoop, accumulated, afterPolls]
  | succ n ih =>
    have hacc1 : accumulated s 1 = pollChunk s 0 := by
      rw [accumulated_succ]
      simp [accumulated]
    by_cases hne : pollChunk s 0 = []
    · -- an empty poll
      have h0 : matchAfter output s 0 = false := by simp [matchAfter, hne]
      have hstep : readTimingLoop (n + 1) output s = readTimingLoop n output (afterPolls s 1) := by
        simp [readTimingLoop, readChannelData_eq, hne]
      have hm : ∀ i, matchAfter output s (i + 1) = matchAfter output (afterPolls s 1) i := by
        intro i
        rw [matchAfter_succ, hne, List.append_nil]
      rcases ih output (afterPolls s 1) with ⟨i, hi, hmi, hlt, hres⟩ | ⟨hall, hres⟩
      · left
        refine ⟨i + 1, Nat.succ_lt_succ hi, by rw [hm]; exact hmi, ?_, ?_⟩
        · intro j hj
          cases j with
          | zero => exact h0
          | succ j => rw [hm]; exact hlt j (Nat.lt_of_succ_lt_succ hj)
        · rw [hstep, hres, accumulated_succ s (i + 1), hne, afterPolls_afterPolls]
          simp
      · right
        refine ⟨?_, ?_⟩
        · intro j hj
          cases j with
          | zero => exact h0
          | succ j => rw [hm]; exact hall j (Nat.lt_of_succ_lt_succ hj)
        · rw [hstep, hres, accumulated_succ s n, hne, afterPolls_afterPolls]
          simp
    · by_cases hp : promptMatch (output ++ pollChunk s 0) = true
      · -- the first poll matches
        left
        refine ⟨0, Nat.succ_pos n, ?_, fun j hj => absurd hj (Nat.not_lt_zero j), ?_⟩
        · simp [matchAfter, hne, hacc1, hp]
        · simp [readTimingLoop, readChannelData_eq, hne, hp, hacc1]
      · have h0 : matchAfter output s 0 = false := by
          simp [matchAfter, hacc1, hp]
        have hstep : readTimingLoop (n + 1) output s =
            readTimingLoop n (output ++ pollChunk s 0) (afterPolls s 1) := by
          simp [readTimingLoop, readChannelData_eq, hne, hp]
        rcases ih (output ++ pollChunk s 0) (afterPolls s 1) with
          ⟨i, hi, hmi, hlt, hres⟩ | ⟨hall, hres⟩
        · left
          refine ⟨i + 1, Nat.succ_lt_succ hi, by rw [matchAfter_succ]; exact hmi, ?_, ?_⟩
          · intro j hj
            cases j with
            | zero => exact h0
            | succ j => rw [matchAfter_succ]; exact hlt j (Nat.lt_of_succ_lt_succ hj)
          · rw [hstep, hres, accumulated_succ s (i + 1), afterPolls_afterPolls]
            simp
        · right
          refine ⟨?_, ?_⟩
          · intro j hj
            cases j with
            | zero => exact h0
            | succ j => rw [matchAfter_succ]; exact hall j (Nat.lt_of_succ_lt_succ hj)
          · rw [hstep, hres, accumulated_succ s n, afterPolls_afterPolls]
            simp

theorem accumulated_zero (s : SSHSession) : accumulated s 0 = [] := by
  simp [accumulated]

theorem stopAfter_succ_of_chunk (expects : List Str) (d : Bool) (output : Str) (s : SSHSession)
    (i : Nat) (hne : pollChunk s 0 ≠ []) :
    stopAfter expects d output s (i + 1)
      = stopAfter expects false (output ++ pollChunk s 0) (afterPolls s 1) i := by
  have hie : (pollChunk s 0).isEmpty = false := by
    cases h : pollChunk s 0 with
    | nil => exact absurd h hne
    | cons a l => rfl
  unfold stopAfter
  rw [pollChunk_afterPolls, accumulated_succ s i, List.append_assoc]
  cases i with
  | zero => simp [hie]
  | succ k => simp [pollChunk_afterPolls]

theorem stopAfter_succ_of_empty (expects : List Str) (d : Bool) (output : Str) (s : SSHSession)
    (i : Nat) (he : pollChunk s 0 = []) :
    stopAfter expects d output s (i + 1) = stopAfter expects true output (afterPolls s 1) i := by
  unfold stopAfter
  rw [pollChunk_afterPolls, accumulated_succ s i, he, List.nil_append]
  cases i with
  | zero => simp [he]
  | succ k => simp [pollChunk_afterPolls]

/-- The loop of `ReadChannelExpect` with `n` iterations left stops at the first
poll at which `stopAfter` holds, or else after `n` polls; it returns every chunk
polled. -/
theorem readExpectLoop_spec (expects : List Str) (n : Nat) (d : Bool) (output : Str)
    (s : SSHSession) :
    (∃ i, i < n ∧ stopAfter expects d output s i = true ∧
      (∀ j, j < i → stopAfter expects d output s j = false) ∧
      readExpectLoop expects n d output s
        = (output ++ accumulated s (i + 1), afterPolls s (i + 1)))
    ∨ ((∀ j, j < n → stopAfter expects d output s j = false) ∧
      readExpectLoop expects n d output s = (output ++ accumulated s n, afterPolls s n)) := by
  induction n generalizing d output s with
  | zero =>
    right
    refine ⟨fun j hj => absurd hj (Nat.not_lt_zero j), ?_⟩
    simp [readExpectLoop, accumulated, afterPolls]
  | succ n ih =>
    have hacc1 : accumulated s 1 = pollChunk s 0 := by
      rw [accumulated_succ]
      simp [accumulated]
    by_cases hne : pollChunk s 0 = []
    · by_cases hstop : (expects.any (fun expect => Contains output expect) || d) = true
      · -- the loop returns at this empty poll
        left
        refine ⟨0, Nat.succ_pos n, ?_, fun j hj => absurd hj (Nat.not_lt_zero j), ?_⟩
        · simpa [stopAfter, hne, accumulated_zero] using hstop
        · rw [Bool.or_eq_true] at hstop
          rcases hstop with hm | hd
          · simp [readExpectLoop, readChannelData_eq, hne, hm, hacc1]
          · by_cases hm : expects.any (fun expect => Contains output expect) = true
            · simp [readExpectLoop, readChannelData_eq, hne, hm, hacc1]
            · simp [readExpectLoop, readChannelData_eq, hne, hm, hd, hacc1]
      · -- an empty poll that delays
        rw [Bool.or_eq_true, not_or] at hstop
        obtain ⟨hm, hd⟩ := hstop
        have hd1 : d = false := by simpa using hd
        have h0 : stopAfter expects d output s 0 = false := by
          simp only [stopAfter, accumulated_zero, List.append_nil, hd1, Bool.or_false]
          simp only [Bool.not_eq_true] at hm
          rw [hm]
          simp
        have hstep : readExpectLoop expects (n + 1) d output s
            = readExpectLoop expects n true output (afterPolls s 1) := by
          simp [readExpectLoop, readChannelData_eq, hne, hm, hd1]
        rcases ih true output (afterPolls s 1) with ⟨i, hi, hmi, hlt, hres⟩ | ⟨hall, hres⟩
        · left
          refine ⟨i + 1, Nat.succ_lt_succ hi, ?_, ?_, ?_⟩
          · rw [stopAfter_succ_of_empty _ _ _ _ _ hne]
            exact hmi
          · intro j hj
            cases j with
            | zero => exact h0
            | succ j =>
              rw [stopAfter_succ_of_empty _ _ _ _ _ hne]
              exact hlt j (Nat.lt_of_succ_lt_succ hj)
          · rw [hstep, hres, accumulated_succ s (i + 1), hne, afterPolls_afterPolls]
            simp
        · right
          refine ⟨?_, ?_⟩
          · intro j hj
            cases j with
            | zero => exact h0
            | succ j =>
              rw [stopAfter_succ_of_empty _ _ _ _ _ hne]
              exact hall j (Nat.lt_of_succ_lt_succ hj)
          · rw [hstep, hres, accumulated_succ s n, hne, afterPolls_afterPolls]
            simp
    · -- a poll that brings text
      have h0 : stopAfter expects d output s 0 = false := by
        simp [stopAfter, hne]
      have hstep : readExpectLoop expects (n + 1) d output s
          = readExpectLoop expects n false (output ++ pollChunk s 0) (afterPolls s 1) := by
        simp [readExpectLoop, readChannelData_eq, hne]
      rcases ih false (output ++ pollChunk s 0) (afterPolls s 1) with
        ⟨i, hi, hmi, hlt, hres⟩ | ⟨hall, hres⟩
      · left
        refine ⟨i + 1, Nat.succ_lt_succ hi, ?_, ?_, ?_⟩
        · rw [stopAfter_succ_of_chunk _ _ _ _ _ hne]
          exact hmi
        · intro j hj
          cases j with
          | zero => exact h0
          | succ j =>
            rw [stopAfter_succ_of_chunk _ _ _ _ _ hne]
            exact hlt j (Nat.lt_of_succ_lt_succ hj)
        · rw [hstep, hres, accumulated_succ s (i + 1), afterPolls_afterPolls]
          simp
      · right
        refine ⟨?_, ?_⟩
        · intro j hj
          cases j with
          | zero => exact h0
          | succ j =>
            rw [stopAfter_succ_of_chunk _ _ _ _ _ hne]
            exact hall j (Nat.lt_of_succ_lt_succ hj)
        · rw [hstep, hres, accumulated_succ s n, afterPolls_afterPolls]
          simp

/-! ## Lemmas on the eviction sweep -/

theorem expiredIn_set_Close (now : Int) (heap : List SSHSession) (a b : Nat) (s : SSHSession)
    (hs : heap[a]? = some s) :
    expiredIn now (heap.set a (Close s)) b = expiredIn now heap b := by
  unfold expiredIn
  by_cases hab : a = b
  · subst hab
    have hlt : a < heap.length := (List.getElem?_eq_some_iff.1 hs).1
    simp [hlt, hs, Close]
  · simp [List.getElem?_set_ne hab]

/-- The loop of `getTimeoutSessionIndex` lists the keys of the expired entries, in
order, and closes their sessions and no other. -/
theorem timeoutScan_spec (now : Int) (cache : List (Str × Nat)) (heap : List SSHSession)
    (idx : List Str) :
    (timeoutScan now cache heap idx).2
      = idx ++ (cache.filter (fun e => expiredIn now heap e.2)).map Prod.fst ∧
    (∀ b, (timeoutScan now cache heap idx).1[b]? =
      if cache.any (fun e => e.2 == b && expiredIn now heap b) then (heap[b]?).map Close
      else heap[b]?) := by
  induction cache generalizing heap idx with
  | nil => simp [timeoutScan]
  | cons e rest ih =>
    obtain ⟨key, a⟩ := e
    cases hs : heap[a]? with
    | none =>
      have hexp : expiredIn now heap a = false := by simp [expiredIn, hs]
      obtain ⟨h1, h2⟩ := ih heap idx
      simp only [timeoutScan, hs]
      refine ⟨?_, ?_⟩
      · rw [h1]
        simp [hexp]
      · intro b
        rw [h2 b]
        by_cases hab : a = b
        · subst hab
          simp [hexp]
        · have hbeq : (a == b) = false := beq_false_of_ne hab
          have hb : ∀ x y : Bool, (a == b && x || y) = y := by
            intro x y
            rw [hbeq]
            simp
          simp only [List.any_cons, hb]
    | some session =>
      by_cases hexp : olderThanNineMinutes (now - session.lastUseTime) = true
      · have hexpA : expiredIn now heap a = true := by simp [expiredIn, hs, hexp]
        obtain ⟨h1, h2⟩ := ih (heap.set a (Close session)) (idx ++ [key])
        simp only [timeoutScan, hs, hexp, if_true]
        have hcongr : ∀ b, expiredIn now (heap.set a (Close session)) b = expiredIn now heap b :=
          fun b => expiredIn_set_Close now heap a b session hs
        refine ⟨?_, ?_⟩
        · rw [h1]
          simp [hcongr, hexpA]
        · intro b
          rw [h2 b]
          simp only [hcongr]
          have hlt : a < heap.length := (List.getElem?_eq_some_iff.1 hs).1
          by_cases hab : a = b
          · subst hab
            simp [hexpA, hlt, hs, Close]
          · have hbeq : (a == b) = false := beq_false_of_ne hab
            have hb : ∀ x y : Bool, (a == b && x || y) = y := by
              intro x y
              rw [hbeq]
              simp
            simp only [List.any_cons, hb, List.getElem?_set_ne hab]
      · have hexpA : expiredIn now heap a = false := by simp [expiredIn, hs, hexp]
        obtain ⟨h1, h2⟩ := ih heap idx
        simp only [timeoutScan, hs, hexp, Bool.false_eq_true, if_false]
        refine ⟨?_, ?_⟩
        · rw [h1]
          simp [hexpA]
        · intro b
          rw [h2 b]
          by_cases hab : a = b
          · subst hab
            simp [hexpA]
          · have hbeq : (a == b) = false := beq_false_of_ne hab
            have hb : ∀ x y : Bool, (a == b && x || y) = y := by
              intro x y
              rw [hbeq]
              simp
            simp only [List.any_cons, hb]

theorem foldl_mapDelete {α : Type} (keys : List Str) (m : List (Str × α)) :
    keys.foldl mapDelete m = m.filter (fun e => decide (e.1 ∉ keys)) := by
  induction keys generalizing m with
  | nil => simp
  | cons k keys ih =>
    simp only [List.foldl_cons, ih, mapDelete, List.filter_filter]
    apply List.filter_congr
    intro e _
    by_cases h1 : e.1 = k <;> simp [h1, eq_comm]

theorem mapGet_eq_none {α : Type} (m : List (Str × α)) (k : Str)
    (h : ∀ e ∈ m, e.1 ≠ k) : mapGet m k = none := by
  induction m with
  | nil => rfl
  | cons e m ih =>
    obtain ⟨k1, v1⟩ := e
    have h1 : k1 ≠ k := h (k1, v1) (by simp)
    simp only [mapGet, h1, if_false]
    exact ih (fun e he => h e (List.mem_cons_of_mem _ he))

/-! ## C1: the normalizer keeps the command echo -/

/-- C1 (the code against the claim): whenever the echo `firstCmd + "\r"` is found in
the normalized lines, and the command neither begins nor ends with white space, the
text returned by `filterResult` starts with the echoed command itself: the cut is
made at the echo, not after it. -/
theorem filterResult_starts_with_echo (raw cmd : Str) (hne : cmd ≠ [])
    (hhead : cmd.head?.any isSpace = false) (hlast : cmd.getLast?.any isSpace = false)
    (hfound : Contains (normalizeLines raw) (cmd ++ ['\r']) = true) :
    HasPrefix (filterResult raw cmd) cmd = true := by
  obtain ⟨i, hi⟩ := LastIndex_isSome_of_Contains _ _ hfound
  have hp := LastIndex_some_hasPrefix _ _ _ hi
  obtain ⟨rest, hrest⟩ := hp
  have hfr : filterResult raw cmd = TrimSpace ((normalizeLines raw).drop i) := by
    simp only [filterResult, hi]
  rw [hfr, ← hrest, HasPrefix_iff, List.append_assoc]
  apply TrimSpace_keeps_prefix _ _ hne
  · intro c hc
    cases hh : cmd.head? with
    | none => simp [hh] at hc
    | some x =>
      rw [hh] at hc hhead
      simp only [Option.mem_def, Option.some.injEq] at hc
      subst hc
      simpa using hhead
  · intro c hc
    cases hh : cmd.getLast? with
    | none => simp [hh] at hc
    | some x =>
      rw [hh] at hc hlast
      simp only [Option.mem_def, Option.some.injEq] at hc
      subst hc
      simpa using hlast

/-- C1, at the example of the specification: the result begins with `dis clock`. -/
theorem filterResult_starts_with_echo_witness :
    "dis clock".toList ≠ [] ∧
    "dis clock".toList.head?.any isSpace = false ∧
    "dis clock".toList.getLast?.any isSpace = false ∧
    Contains (normalizeLines "dis clock\r\n<device>2024...\r\n".toList)
      ("dis clock".toList ++ ['\r']) = true ∧
    filterResult "dis clock\r\n<device>2024...\r\n".toList "dis clock".toList
      = "dis clock\r\n<device>2024...".toList ∧
    HasPrefix (filterResult "dis clock\r\n<device>2024...\r\n".toList "dis clock".toList)
      "dis clock".toList = true :=
  ⟨by decide, by decide, by decide, by decide, by decide,
   filterResult_starts_with_echo _ _ (by decide) (by decide) (by decide) (by decide)⟩

/-! ## C2: a second pass of the normalizer -/

theorem not_infix_of_Contains_false (s p : Str) (h : Contains s p = false) : ¬ p <:+: s := by
  rw [← Contains_iff, h]
  simp

/-- On a text that keeps none of the artifacts, does not end with a space and holds
neither the marker nor a space before a line end, the lines come out unchanged. -/
theorem normalizeLines_of_clean (t : Str)
    (h1 : Contains t ['\r', '\r', '\n'] = false) (h2 : Contains t [' ', '\r', '\n'] = false)
    (h3 : Contains t [' ', '\x08'] = false) (hB : ¬ lastConfigMarker <:+: t)
    (hC : ¬ [' ', '\n'] <:+: t) (hD : t.getLast? ≠ some ' ') :
    normalizeLines t = t ++ ['\n'] := by
  simp only [normalizeLines, filterLines_eq, List.nil_append]
  rw [Replace_of_not_Contains t _ _ (by simp) h1, Replace_of_not_Contains t _ _ (by simp) h2]
  exact flatMap_filterLine_of_clean t.length t (Nat.le_refl _)
    (not_infix_of_Contains_false _ _ h3) hB hC hD

/-- C2 (amended): when the result `t` of a first pass holds none of the artifacts
"\r\r\n", " \r\n" and " \b", a second pass returns `t` itself if `t` still holds the
echo `firstCmd + "\r"`, and `t` followed by one line end otherwise. -/
theorem filterResult_second_pass (r c : Str)
    (h1 : Contains (filterResult r c) ['\r', '\r', '\n'] = false)
    (h2 : Contains (filterResult r c) [' ', '\r', '\n'] = false)
    (h3 : Contains (filterResult r c) [' ', '\x08'] = false) :
    filterResult (filterResult r c) c =
      if Contains (filterResult r c) (c ++ ['\r']) then filterResult r c
      else filterResult r c ++ ['\n'] := by
  obtain ⟨fX1, fX2, fX3⟩ := normalizeLines_facts r
  have hpat : c ++ ['\r'] ≠ [] := by simp
  -- the second pass on a text `t` whose lines come out unchanged
  have second : ∀ t : Str, normalizeLines t = t ++ ['\n'] →
      ¬ c ++ ['\r'] <:+: t → filterResult t c = t ++ ['\n'] := by
    intro t hN hno
    have hnone : LastIndex (t ++ ['\n']) (c ++ ['\r']) = none := by
      cases hl : LastIndex (t ++ ['\n']) (c ++ ['\r']) with
      | none => rfl
      | some k =>
        exact absurd (echo_infix_of_append_newline c t
          ((LastIndex_some_hasPrefix _ _ _ hl).isInfix.trans (List.drop_suffix _ _).isInfix)) hno
    simp only [filterResult, hN, hnone]
  cases hL : LastIndex (normalizeLines r) (c ++ ['\r']) with
  | none =>
    have hfr : filterResult r c = normalizeLines r := by simp only [filterResult, hL]
    rw [hfr] at h1 h2 h3 ⊢
    have hno := LastIndex_none_not_infix _ _ hL
    have hN := normalizeLines_of_clean (normalizeLines r) h1 h2 h3 fX2 fX3
      (by rw [fX1]; decide)
    have hc : Contains (normalizeLines r) (c ++ ['\r']) = false := by
      cases hh : Contains (normalizeLines r) (c ++ ['\r']) with
      | false => rfl
      | true => exact absurd ((Contains_iff _ _).1 hh) hno
    rw [hc]
    exact second _ hN hno
  | some i =>
    have hfr : filterResult r c = TrimSpace ((normalizeLines r).drop i) := by
      simp only [filterResult, hL]
    rw [hfr] at h1 h2 h3 ⊢
    have hin : TrimSpace ((normalizeLines r).drop i) <:+: normalizeLines r :=
      (TrimSpace_isInfix _).trans (List.drop_suffix _ _).isInfix
    have hN := normalizeLines_of_clean _ h1 h2 h3 (fun h => fX2 (h.trans hin))
      (fun h => fX3 (h.trans hin)) (TrimSpace_getLast _)
    cases hc : Contains (TrimSpace ((normalizeLines r).drop i)) (c ++ ['\r']) with
    | false =>
      simp only [Bool.false_eq_true, if_false]
      exact second _ hN (not_infix_of_Contains_false _ _ hc)
    | true =>
      simp only [if_true]
      -- the echo is at the head of the trimmed text, and nowhere else
      have hlast := LastIndex_some_last _ _ i hpat hL
      obtain ⟨u, v, huv⟩ := TrimSpace_isInfix ((normalizeLines r).drop i)
      obtain ⟨a, b, hab⟩ := (Contains_iff _ _).1 hc
      have hocc : ∀ k, c ++ ['\r'] <+: (TrimSpace ((normalizeLines r).drop i)).drop k →
          k ≤ (TrimSpace ((normalizeLines r).drop i)).length → u.length + k = 0 := by
        intro k hk hkl
        by_contra hpos
        apply hlast (i + (u.length + k)) (by omega)
        rw [← List.drop_drop, ← huv, List.append_assoc, ← List.drop_drop,
          List.drop_left, List.drop_append_of_le_length hkl]
        exact hk.trans (List.prefix_append _ _)
      have ha : u.length + a.length = 0 := by
        apply hocc a.length
        · rw [← hab, List.append_assoc, List.drop_left]
          exact List.prefix_append _ _
        · rw [← hab]
          simp
      have ha0 : a = [] := List.length_eq_zero.1 (by omega)
      subst ha0
      have hpre : c ++ ['\r'] <+: TrimSpace ((normalizeLines r).drop i) := ⟨b, by simpa using hab⟩
      have hne : TrimSpace ((normalizeLines r).drop i) ≠ [] := by
        intro h0
        rw [h0] at hpre
        exact hpat (List.prefix_nil.1 hpre)
      have hzero : LastIndex (TrimSpace ((normalizeLines r).drop i) ++ ['\n']) (c ++ ['\r'])
          = some 0 := by
        apply LastIndex_eq_zero _ _ (hpre.trans (List.prefix_append _ _))
        intro j hj hpj
        by_cases hjl : j ≤ (TrimSpace ((normalizeLines r).drop i)).length
        · rw [List.drop_append_of_le_length hjl] at hpj
          have hin2 : c ++ ['\r'] <:+: (TrimSpace ((normalizeLines r).drop i)).drop j ++ ['\n'] :=
            hpj.isInfix
          have hin3 := echo_infix_of_append_newline c _ hin2
          -- an occurrence at the index `j + k` of the trimmed text
          obtain ⟨a1, b1, hab1⟩ := hin3
          have hk : a1.length + j ≤ (TrimSpace ((normalizeLines r).drop i)).length := by
            have := congrArg List.length hab1
            simp at this
            omega
          have := hocc (a1.length + j) (by
            rw [Nat.add_comm, ← List.drop_drop, ← hab1, List.append_assoc, List.drop_left]
            exact List.prefix_append _ _) hk
          omega
        · have hnil : (TrimSpace ((normalizeLines r).drop i) ++ ['\n']).drop j = [] := by
            apply List.drop_eq_nil_of_le
            simp
            omega
          rw [hnil] at hpj
          exact hpat (List.prefix_nil.1 hpj)
      simp only [filterResult, hN, hzero, List.drop_zero]
      exact TrimSpace_append_newline _ hne


/-- C2 (amended) on a text with a banner before the echo: the first pass cuts the
banner and a second pass changes nothing. -/
theorem filterResult_second_pass_witness :
    filterResult "banner\r\ndis clock\r\n2024 \r\n<HW>".toList "dis clock".toList
      = "dis clock\r\n2024\r\n<HW>".toList ∧
    Contains (filterResult "banner\r\ndis clock\r\n2024 \r\n<HW>".toList "dis clock".toList)
      ['\r', '\r', '\n'] = false ∧
    Contains (filterResult "banner\r\ndis clock\r\n2024 \r\n<HW>".toList "dis clock".toList)
      [' ', '\r', '\n'] = false ∧
    Contains (filterResult "banner\r\ndis clock\r\n2024 \r\n<HW>".toList "dis clock".toList)
      [' ', '\x08'] = false ∧
    filterResult
        (filterResult "banner\r\ndis clock\r\n2024 \r\n<HW>".toList "dis clock".toList)
        "dis clock".toList
      = if Contains
            (filterResult "banner\r\ndis clock\r\n2024 \r\n<HW>".toList "dis clock".toList)
            ("dis clock".toList ++ ['\r'])
        then filterResult "banner\r\ndis clock\r\n2024 \r\n<HW>".toList "dis clock".toList
        else filterResult "banner\r\ndis clock\r\n2024 \r\n<HW>".toList "dis clock".toList
          ++ ['\n'] :=
  ⟨by decide, by decide, by decide, by decide,
   filterResult_second_pass _ _ (by decide) (by decide) (by decide)⟩

/-- C2 (counterexample): without an echo in the text every pass appends a line
end, and a pass can leave an artifact that the next pass rewrites. -/
theorem filterResult_not_idempotent :
    filterResult [] "dis clock".toList = ['\n'] ∧
    filterResult (filterResult [] "dis clock".toList) "dis clock".toList = ['\n', '\n'] ∧
    filterResult "dis clock\r\n".toList "dis clock".toList = "dis clock".toList ∧
    filterResult (filterResult "dis clock\r\n".toList "dis clock".toList) "dis clock".toList
      = "dis clock\n".toList ∧
    filterResult "dis clock\r\nabc  \r\n<HW>".toList "dis clock".toList
      = "dis clock\r\nabc \r\n<HW>".toList ∧
    filterResult (filterResult "dis clock\r\nabc  \r\n<HW>".toList "dis clock".toList)
        "dis clock".toList
      = "dis clock\r\nabc\r\n<HW>".toList := by
  decide

/-! ## C3: classification of every command -/

/-- C3: once `GetSession` has handed out a session, `RunCmdWithBrand` makes one prompt
read for each command of the list and `MapResult` is the map in which the outcome
`(text, ok)` of every command is recorded in order, with the normalized text and with
the status `success` when `ok`, the `empty` status when not `ok` and `text` is
empty, the `incomplete` status when not `ok` and `text` is not empty: every command
of the list has the entry of its last run, and no entry has the `unknown error`
status. -/
theorem RunCmdWithBrand_command_status (w : World) (m : SessionManager) (d : Device)
    (timeOut : Int) (a : Option Nat) (m1 : SessionManager)
    (hget : GetSession w m (withDefaultPort d).Username (withDefaultPort d).Password
      (ipPortOf (withDefaultPort d)) (withDefaultPort d).Brand = some (.ok a, m1)) :
    ∃ a1 s r, a = some a1 ∧ m1.heap[a1]? = some s ∧
      RunCmdWithBrand w m d timeOut = some r ∧
      (readOutcomes (effectiveTimeout (withDefaultPort d) timeOut) d.Cmds s).length
        = d.Cmds.length ∧
      r.device.MapResult = recordOutcomes d.Cmds
        (readOutcomes (effectiveTimeout (withDefaultPort d) timeOut) d.Cmds s) [] ∧
      (∀ (i : Nat) (cmd text : Str) (ok : Bool), d.Cmds[i]? = some cmd →
        (readOutcomes (effectiveTimeout (withDefaultPort d) timeOut) d.Cmds s)[i]?
          = some (text, ok) →
        (∀ j : Nat, i < j → d.Cmds[j]? ≠ some cmd) →
        ∃ one, mapGet r.device.MapResult cmd = some one ∧
          one.RES = filterResult text cmd ∧
          (ok = true → one.Status = statusSuccess) ∧
          (ok = false → text = [] → one.Status = statusEmpty) ∧
          (ok = false → text ≠ [] → one.Status = statusIncomplete)) ∧
      (∀ e ∈ r.device.MapResult,
        e.2.Status ≠ statusUnknown ∧
        (e.2.Status = statusSuccess ∨ e.2.Status = statusEmpty ∨
          e.2.Status = statusIncomplete)) := by
  obtain ⟨a1, s, ha, hs, hopen⟩ := GetSession_ok_open _ _ _ _ _ _ _ _ hget
  subst ha
  have hcmds : (withDefaultPort d).Cmds = d.Cmds := by
    unfold withDefaultPort
    split <;> rfl
  obtain ⟨acc1, s1, hrun, hmap⟩ :=
    runCmds_mapRes (effectiveTimeout (withDefaultPort d) timeOut) d.Cmds s
      { successNum := 0, rawRes := [], mapRes := [] } hopen
  obtain ⟨acc2, s2, hrun2, _, _, hlen⟩ :=
    runCmds_open (effectiveTimeout (withDefaultPort d) timeOut) d.Cmds s
      { successNum := 0, rawRes := [], mapRes := [] } hopen
  have hR : RunCmdWithBrand w m d timeOut = some
      { device :=
          { withDefaultPort d with
            SendStatus :=
              if acc1.successNum = d.Cmds.length then statusSuccess else statusPartial,
            RawResult := acc1.rawRes,
            MapResult := acc1.mapRes },
        manager := { m1 with heap := m1.heap.set a1 s1 },
        err := none } := by
    simp only [RunCmdWithBrand, hget, hs, hcmds, hrun]
  refine ⟨a1, s, _, rfl, hs, hR, hlen, hmap, ?_, ?_⟩
  · intro i cmd text ok hc ho hlast
    refine ⟨{ RES := filterResult text cmd, Status := threeCaseStatus text ok }, ?_, rfl,
      ?_, ?_, ?_⟩
    · show mapGet acc1.mapRes cmd = _
      rw [hmap]
      exact mapGet_recordOutcomes _ _ _ i cmd text ok hc ho hlast
    · intro h
      simp [threeCaseStatus, h]
    · intro h1 h2
      simp [threeCaseStatus, h1, h2]
    · intro h1 h2
      simp [threeCaseStatus, h1, h2]
  · intro e he
    have hthree : e.2.Status = statusSuccess ∨ e.2.Status = statusEmpty ∨
        e.2.Status = statusIncomplete := by
      have he1 : e ∈ recordOutcomes d.Cmds
          (readOutcomes (effectiveTimeout (withDefaultPort d) timeOut) d.Cmds s) [] := by
        rw [← hmap]
        exact he
      exact recordOutcomes_status _ _ [] (fun e h => absurd h (List.not_mem_nil e)) e he1
    refine ⟨?_, hthree⟩
    rcases hthree with h | h | h <;> rw [h] <;> decide

/-- C3 on a device that answers the first of three commands with a prompt, the second
with a text without prompt, and the third not at all: `success`, the `incomplete`
status and the `empty` status are recorded. -/
theorem RunCmdWithBrand_command_status_witness :
    GetSession mixedWorld emptyManager (withDefaultPort threeCmdDevice).Username
      (withDefaultPort threeCmdDevice).Password (ipPortOf (withDefaultPort threeCmdDevice))
      (withDefaultPort threeCmdDevice).Brand = some (.ok (some 0), mixedManager) ∧
    (RunCmdWithBrand mixedWorld emptyManager threeCmdDevice 50).map
        (fun r => r.device.MapResult.map (fun e => (e.1, e.2.Status)))
      = some [("dis clock".toList, statusSuccess), ("dis ver".toList, statusIncomplete),
          ("dis cur".toList, statusEmpty)] ∧
    ∃ a1 s r, some 0 = some a1 ∧ mixedManager.heap[a1]? = some s ∧
      RunCmdWithBrand mixedWorld emptyManager threeCmdDevice 50 = some r ∧
      (readOutcomes (effectiveTimeout (withDefaultPort threeCmdDevice) 50)
        threeCmdDevice.Cmds s).length = threeCmdDevice.Cmds.length ∧
      r.device.MapResult = recordOutcomes threeCmdDevice.Cmds
        (readOutcomes (effectiveTimeout (withDefaultPort threeCmdDevice) 50)
          threeCmdDevice.Cmds s) [] ∧
      (∀ (i : Nat) (cmd text : Str) (ok : Bool), threeCmdDevice.Cmds[i]? = some cmd →
        (readOutcomes (effectiveTimeout (withDefaultPort threeCmdDevice) 50)
          threeCmdDevice.Cmds s)[i]? = some (text, ok) →
        (∀ j : Nat, i < j → threeCmdDevice.Cmds[j]? ≠ some cmd) →
        ∃ one, mapGet r.device.MapResult cmd = some one ∧
          one.RES = filterResult text cmd ∧
          (ok = true → one.Status = statusSuccess) ∧
          (ok = false → text = [] → one.Status = statusEmpty) ∧
          (ok = false → text ≠ [] → one.Status = statusIncomplete)) ∧
      (∀ e ∈ r.device.MapResult,
        e.2.Status ≠ statusUnknown ∧
        (e.2.Status = statusSuccess ∨ e.2.Status = statusEmpty ∨
          e.2.Status = statusIncomplete)) :=
  ⟨rfl, by decide,
   RunCmdWithBrand_command_status mixedWorld emptyManager threeCmdDevice 50 (some 0)
     mixedManager rfl⟩

/-! ## C4: overall status -/

/-- C4: once `GetSession` has handed out a session, `RunCmdWithBrand` returns
without error, makes one prompt read for each command of the list, and sets
`SendStatus` to `success` exactly when every one of these reads matched; otherwise
it sets the partial-failure status. -/
theorem RunCmdWithBrand_overall_status (w : World) (m : SessionManager) (d : Device)
    (timeOut : Int) (a : Option Nat) (m1 : SessionManager)
    (hget : GetSession w m (withDefaultPort d).Username (withDefaultPort d).Password
      (ipPortOf (withDefaultPort d)) (withDefaultPort d).Brand = some (.ok a, m1)) :
    ∃ a1 s r, a = some a1 ∧ m1.heap[a1]? = some s ∧
      RunCmdWithBrand w m d timeOut = some r ∧ r.err = none ∧
      (readOutcomes (effectiveTimeout (withDefaultPort d) timeOut) d.Cmds s).length
        = d.Cmds.length ∧
      (r.device.SendStatus = statusSuccess ↔
        ∀ o ∈ readOutcomes (effectiveTimeout (withDefaultPort d) timeOut) d.Cmds s,
          o.2 = true) ∧
      (r.device.SendStatus ≠ statusSuccess → r.device.SendStatus = statusPartial) := by
  obtain ⟨a1, s, ha, hs, hopen⟩ := GetSession_ok_open _ _ _ _ _ _ _ _ hget
  subst ha
  have hcmds : (withDefaultPort d).Cmds = d.Cmds := by
    unfold withDefaultPort
    split <;> rfl
  obtain ⟨acc1, s1, hrun, _, hnum, hlen⟩ :=
    runCmds_open (effectiveTimeout (withDefaultPort d) timeOut) d.Cmds s
      { successNum := 0, rawRes := [], mapRes := [] } hopen
  have hall : acc1.successNum = d.Cmds.length ↔
      ∀ o ∈ readOutcomes (effectiveTimeout (withDefaultPort d) timeOut) d.Cmds s,
        o.2 = true := by
    rw [hnum, ← hlen]
    simp only [Nat.zero_add]
    rw [List.countP_eq_length]
  have hR : RunCmdWithBrand w m d timeOut = some
      { device :=
          { withDefaultPort d with
            SendStatus :=
              if acc1.successNum = d.Cmds.length then statusSuccess else statusPartial,
            RawResult := acc1.rawRes,
            MapResult := acc1.mapRes },
        manager := { m1 with heap := m1.heap.set a1 s1 },
        err := none } := by
    simp only [RunCmdWithBrand, hget, hs, hcmds, hrun]
  refine ⟨a1, s, _, rfl, hs, hR, rfl, hlen, ?_, ?_⟩
  · simp only
    rw [← hall]
    by_cases hc : acc1.successNum = d.Cmds.length
    · simp [hc, hcmds]
    · simp only [hcmds, hc, if_false, iff_false]
      decide
  · simp only
    intro hne
    by_cases hc : acc1.successNum = d.Cmds.length
    · simp [hc, hcmds] at hne
    · simp [hc, hcmds]


/-- C4 on the sample device: the first of the two reads of `dis clock` times out and
the second matches, so that the only entry of `MapResult` is a success and
`SendStatus` is the partial-failure status. -/
theorem RunCmdWithBrand_overall_status_witness :
    GetSession sampleWorld emptyManager (withDefaultPort (sampleDevice "admin".toList)).Username
      (withDefaultPort (sampleDevice "admin".toList)).Password
      (ipPortOf (withDefaultPort (sampleDevice "admin".toList)))
      (withDefaultPort (sampleDevice "admin".toList)).Brand
      = some (.ok (some 0), sampleManager) ∧
    (RunCmdWithBrand sampleWorld emptyManager (sampleDevice "admin".toList) 50).map
      (fun r => (r.device.SendStatus, r.device.MapResult.map (fun e => e.2.Status)))
      = some (statusPartial, [statusSuccess]) ∧
    ∃ a1 s r, some 0 = some a1 ∧ sampleManager.heap[a1]? = some s ∧
      RunCmdWithBrand sampleWorld emptyManager (sampleDevice "admin".toList) 50 = some r ∧
      r.err = none ∧
      (readOutcomes (effectiveTimeout (withDefaultPort (sampleDevice "admin".toList)) 50)
        (sampleDevice "admin".toList).Cmds s).length
        = (sampleDevice "admin".toList).Cmds.length ∧
      (r.device.SendStatus = statusSuccess ↔
        ∀ o ∈ readOutcomes (effectiveTimeout (withDefaultPort (sampleDevice "admin".toList)) 50)
          (sampleDevice "admin".toList).Cmds s, o.2 = true) ∧
      (r.device.SendStatus ≠ statusSuccess → r.device.SendStatus = statusPartial) :=
  ⟨rfl, by decide,
   RunCmdWithBrand_overall_status sampleWorld emptyManager (sampleDevice "admin".toList) 50
     (some 0) sampleManager rfl⟩

/-! ## C5: classification of a session-acquisition failure -/

theorem withDefaultPort_IP (d : Device) : (withDefaultPort d).IP = d.IP := by
  unfold withDefaultPort
  split <;> rfl

theorem sessionErrorStatus_eq_firstCategoryStatus (err IP : Str) :
    sessionErrorStatus err IP = firstCategoryStatus err IP := by
  unfold sessionErrorStatus firstCategoryStatus errorCategories
  simp only [List.find?]
  cases Contains err "unable to authenticate".toList
  · cases Contains err "reset by peer".toList
    · cases Contains err "timed out".toList
      · cases Contains err "connection refused".toList
        · cases Contains err "timeout sending".toList <;> rfl
        · rfl
      · rfl
    · rfl
  · rfl

/-- C5: when `GetSession` fails with the error text `err`, `RunCmdWithBrand` returns
that error and sets `SendStatus` to the status of the first of the substrings
"unable to authenticate", "reset by peer", "timed out", "connection refused",
"timeout sending", in this order, that `err` contains; when `err` contains none of
them, `SendStatus` is the unclassified status, which contains `err` itself. -/
theorem RunCmdWithBrand_session_error_status (w : World) (m : SessionManager) (d : Device)
    (timeOut : Int) (err : Str) (m1 : SessionManager)
    (hget : GetSession w m (withDefaultPort d).Username (withDefaultPort d).Password
      (ipPortOf (withDefaultPort d)) (withDefaultPort d).Brand = some (.error err, m1)) :
    ∃ r, RunCmdWithBrand w m d timeOut = some r ∧ r.err = some err ∧
      r.device.SendStatus = firstCategoryStatus err d.IP ∧
      (errorCategories.find? (fun c => Contains err c.1) = none →
        r.device.SendStatus = "其他错误:".toList ++ err ++ ",IP为".toList ++ d.IP ∧
        Contains r.device.SendStatus err = true) := by
  have hR : RunCmdWithBrand w m d timeOut = some
      { device := { withDefaultPort d with SendStatus := sessionErrorStatus err d.IP },
        manager := m1, err := some err } := by
    simp only [RunCmdWithBrand, hget, withDefaultPort_IP]
  refine ⟨_, hR, rfl, sessionErrorStatus_eq_firstCategoryStatus err d.IP, ?_⟩
  intro hnone
  have hs : sessionErrorStatus err d.IP = "其他错误:".toList ++ err ++ ",IP为".toList ++ d.IP := by
    rw [sessionErrorStatus_eq_firstCategoryStatus]
    simp only [firstCategoryStatus, hnone]
  refine ⟨hs, ?_⟩
  show Contains (sessionErrorStatus err d.IP) err = true
  rw [hs, List.append_assoc _ _ d.IP]
  exact Contains_append_mid _ _ _

/-- C5 on the sample device with a user that the device rejects. -/
theorem RunCmdWithBrand_session_error_status_witness :
    GetSession sampleWorld emptyManager (withDefaultPort (sampleDevice "guest".toList)).Username
      (withDefaultPort (sampleDevice "guest".toList)).Password
      (ipPortOf (withDefaultPort (sampleDevice "guest".toList)))
      (withDefaultPort (sampleDevice "guest".toList)).Brand
      = some (.error "ssh: handshake failed: ssh: unable to authenticate".toList, emptyManager) ∧
    (RunCmdWithBrand sampleWorld emptyManager (sampleDevice "guest".toList) 50).map
      (fun r => r.device.SendStatus) = some "密码错误,IP为10.0.0.1".toList ∧
    ∃ r, RunCmdWithBrand sampleWorld emptyManager (sampleDevice "guest".toList) 50 = some r ∧
      r.err = some "ssh: handshake failed: ssh: unable to authenticate".toList ∧
      r.device.SendStatus = firstCategoryStatus
        "ssh: handshake failed: ssh: unable to authenticate".toList
        (sampleDevice "guest".toList).IP ∧
      (errorCategories.find?
          (fun c => Contains "ssh: handshake failed: ssh: unable to authenticate".toList c.1)
          = none →
        r.device.SendStatus = "其他错误:".toList ++
          "ssh: handshake failed: ssh: unable to authenticate".toList ++ ",IP为".toList ++
          (sampleDevice "guest".toList).IP ∧
        Contains r.device.SendStatus
          "ssh: handshake failed: ssh: unable to authenticate".toList = true) :=
  ⟨rfl, by decide,
   RunCmdWithBrand_session_error_status sampleWorld emptyManager (sampleDevice "guest".toList) 50
     "ssh: handshake failed: ssh: unable to authenticate".toList emptyManager rfl⟩

/-! ## C6: poll budget of `ReadChannelTiming` -/

theorem afterPolls_zero (s : SSHSession) : afterPolls s 0 = s := by
  cases s
  simp [afterPolls]

theorem wrapInt_of_range (x : Int) (hlo : -2 ^ 63 ≤ x) (hhi : x < 2 ^ 63) : wrapInt x = x := by
  unfold wrapInt
  omega

/-- C6 (amended): for every time-out `t` whose product `t * 1000` fits a Go `int`,
`ReadChannelTiming t` makes at most `t * 1000 / 100` polls, and none when `t ≤ 0`;
it returns the accumulated text and `true` at the first non-empty poll after which
the accumulated text matches `PROMPT`, and otherwise the whole accumulated text and
`false` after exactly `t * 1000 / 100` polls. -/
theorem ReadChannelTiming_poll_budget (t : Int) (s : SSHSession)
    (hlo : -2 ^ 63 ≤ t * 1000) (hhi : t * 1000 < 2 ^ 63) :
    (ReadChannelTiming t s).2.polls ≤ s.polls + (Int.tdiv (t * 1000) 100).toNat ∧
    (t ≤ 0 → ReadChannelTiming t s = (([], false), s)) ∧
    ((∃ i, i < (Int.tdiv (t * 1000) 100).toNat ∧ matchAfter [] s i = true ∧
        (∀ j, j < i → matchAfter [] s j = false) ∧
        ReadChannelTiming t s = ((accumulated s (i + 1), true), afterPolls s (i + 1)))
      ∨ ((∀ j, j < (Int.tdiv (t * 1000) 100).toNat → matchAfter [] s j = false) ∧
        ReadChannelTiming t s =
          ((accumulated s (Int.tdiv (t * 1000) 100).toNat, false),
            afterPolls s (Int.tdiv (t * 1000) 100).toNat))) := by
  have hn : (timingLoops t).toNat = (Int.tdiv (t * 1000) 100).toNat := by
    unfold timingLoops
    rw [wrapInt_of_range _ hlo hhi]
  have hspec := readTimingLoop_spec (Int.tdiv (t * 1000) 100).toNat [] s
  simp only [List.nil_append] at hspec
  have hR : ReadChannelTiming t s = readTimingLoop (Int.tdiv (t * 1000) 100).toNat [] s := by
    unfold ReadChannelTiming
    rw [hn]
  rw [hR]
  refine ⟨?_, ?_, hspec⟩
  · rcases hspec with ⟨i, hi, _, _, hres⟩ | ⟨_, hres⟩
    · rw [hres]
      simp only [afterPolls]
      omega
    · rw [hres]
      simp only [afterPolls]
      omega
  · intro ht
    have h0 : (Int.tdiv (t * 1000) 100).toNat = 0 := by
      have : Int.tdiv (t * 1000) 100 = t * 10 := by
        have : t * 1000 = (t * 10) * 100 := by ring
        rw [this, Int.mul_tdiv_cancel _ (by decide)]
      rw [this]
      omega
    rw [h0]
    rfl


/-- C6 (amended) on a device that echoes the command, pauses, and then sends the
answer with the prompt: the read returns at the third poll. -/
theorem ReadChannelTiming_poll_budget_witness :
    ReadChannelTiming 1
        (streamSession ["dis clock\r\n".toList, [], "2024\r\n<HW>".toList, "more".toList])
      = (("dis clock\r\n2024\r\n<HW>".toList, true),
         { streamSession ["more".toList] with polls := 3 }) ∧
    ((ReadChannelTiming 1
        (streamSession ["dis clock\r\n".toList, [], "2024\r\n<HW>".toList, "more".toList])).2.polls
      ≤ (streamSession ["dis clock\r\n".toList, [], "2024\r\n<HW>".toList, "more".toList]).polls
        + (Int.tdiv (1 * 1000) 100).toNat ∧
    ((1 : Int) ≤ 0 → ReadChannelTiming 1
        (streamSession ["dis clock\r\n".toList, [], "2024\r\n<HW>".toList, "more".toList])
      = (([], false),
         streamSession ["dis clock\r\n".toList, [], "2024\r\n<HW>".toList, "more".toList])) ∧
    ((∃ i, i < (Int.tdiv (1 * 1000) 100).toNat ∧
        matchAfter []
          (streamSession ["dis clock\r\n".toList, [], "2024\r\n<HW>".toList, "more".toList]) i
          = true ∧
        (∀ j, j < i → matchAfter []
          (streamSession ["dis clock\r\n".toList, [], "2024\r\n<HW>".toList, "more".toList]) j
          = false) ∧
        ReadChannelTiming 1
          (streamSession ["dis clock\r\n".toList, [], "2024\r\n<HW>".toList, "more".toList])
        = ((accumulated
            (streamSession ["dis clock\r\n".toList, [], "2024\r\n<HW>".toList, "more".toList])
            (i + 1), true),
          afterPolls
            (streamSession ["dis clock\r\n".toList, [], "2024\r\n<HW>".toList, "more".toList])
            (i + 1)))
      ∨ ((∀ j, j < (Int.tdiv (1 * 1000) 100).toNat → matchAfter []
          (streamSession ["dis clock\r\n".toList, [], "2024\r\n<HW>".toList, "more".toList]) j
          = false) ∧
        ReadChannelTiming 1
          (streamSession ["dis clock\r\n".toList, [], "2024\r\n<HW>".toList, "more".toList])
        = ((accumulated
            (streamSession ["dis clock\r\n".toList, [], "2024\r\n<HW>".toList, "more".toList])
            (Int.tdiv (1 * 1000) 100).toNat, false),
          afterPolls
            (streamSession ["dis clock\r\n".toList, [], "2024\r\n<HW>".toList, "more".toList])
            (Int.tdiv (1 * 1000) 100).toNat)))) :=
  ⟨by decide,
   ReadChannelTiming_poll_budget 1
     (streamSession ["dis clock\r\n".toList, [], "2024\r\n<HW>".toList, "more".toList])
     (by decide) (by decide)⟩

/-- C6 (counterexample): the time-out `-9223372036854776` is negative, its product
by 1000 wraps around to a positive Go `int`, and `ReadChannelTiming` polls the
device: it returns the prompt read at its first poll. -/
theorem ReadChannelTiming_negative_timeout_polls :
    (-9223372036854776 : Int) ≤ 0 ∧
    timingLoops (-9223372036854776) = 92233720368547756 ∧
    ReadChannelTiming (-9223372036854776) (streamSession ["\n<HW>".toList])
      = (("\n<HW>".toList, true), { streamSession [] with polls := 1 }) :=
  ⟨by decide, by decide, by decide⟩

/-! ## C7: termination of `ReadChannelExpect` -/

theorem accumulated_silent (s : SSHSession) (hsilent : ∀ i, pollChunk s i = []) (k : Nat) :
    accumulated s k = [] := by
  induction k generalizing s with
  | zero => exact accumulated_zero s
  | succ k ih =>
    rw [accumulated_succ, hsilent 0, List.nil_append]
    apply ih
    intro i
    rw [pollChunk_afterPolls]
    exact hsilent (i + 1)

/-- C7 (amended): for every stream, idle time-out and marker list, `ReadChannelExpect`
returns after at most 100 polls; it returns earlier exactly at the first empty poll
at which either the accumulated text contains one of the markers or the poll before
was empty as well; the text returned is the concatenation of every chunk polled.  A
silent stream returns the empty text after two polls when no marker is the empty
string. -/
theorem ReadChannelExpect_termination (timeout : Int) (expects : List Str) (s : SSHSession) :
    (ReadChannelExpect timeout expects s).2.polls ≤ s.polls + 100 ∧
    ((∃ i, i < 100 ∧ stopAfter expects false [] s i = true ∧
        (∀ j, j < i → stopAfter expects false [] s j = false) ∧
        ReadChannelExpect timeout expects s = (accumulated s (i + 1), afterPolls s (i + 1)))
      ∨ ((∀ j, j < 100 → stopAfter expects false [] s j = false) ∧
        ReadChannelExpect timeout expects s = (accumulated s 100, afterPolls s 100))) ∧
    ((∀ i, pollChunk s i = []) → [] ∉ expects →
      ReadChannelExpect timeout expects s = ([], afterPolls s 2)) := by
  have hspec := readExpectLoop_spec expects 100 false [] s
  simp only [List.nil_append] at hspec
  have hR : ReadChannelExpect timeout expects s = readExpectLoop expects 100 false [] s := rfl
  rw [hR]
  refine ⟨?_, hspec, ?_⟩
  · rcases hspec with ⟨i, hi, _, _, hres⟩ | ⟨_, hres⟩
    · rw [hres]
      simp only [afterPolls]
      omega
    · rw [hres]
      exact Nat.le_refl _
  · intro hsilent hmark
    have hno : expects.any (fun expect => Contains [] expect) = false := by
      rw [List.any_eq_false]
      intro e he
      cases e with
      | nil => exact absurd he hmark
      | cons a l => simp [Contains]
    have h0 : stopAfter expects false [] s 0 = false := by
      simp only [stopAfter, accumulated_zero, List.append_nil, hno]
      simp
    have h1 : stopAfter expects false [] s 1 = true := by
      simp [stopAfter, hsilent]
    rcases hspec with ⟨i, _, hi, hlt, hres⟩ | ⟨hall, _⟩
    · have hi1 : i = 1 := by
        rcases Nat.lt_trichotomy i 1 with h | h | h
        · have : i = 0 := by omega
          subst this
          rw [h0] at hi
          cases hi
        · exact h
        · have := hlt 1 h
          rw [h1] at this
          cases this
      subst hi1
      rw [hres, accumulated_silent s hsilent]
    · have := hall 1 (by decide)
      rw [h1] at this
      cases this

/-- C7 (amended) on a silent stream read with the prompt terminators: two polls. -/
theorem ReadChannelExpect_termination_witness :
    ReadChannelExpect 1000 promptMarkers (streamSession [])
      = ([], { streamSession [] with polls := 2 }) ∧
    ((ReadChannelExpect 1000 promptMarkers (streamSession [])).2.polls
        ≤ (streamSession []).polls + 100 ∧
      ((∃ i, i < 100 ∧ stopAfter promptMarkers false [] (streamSession []) i = true ∧
          (∀ j, j < i → stopAfter promptMarkers false [] (streamSession []) j = false) ∧
          ReadChannelExpect 1000 promptMarkers (streamSession [])
            = (accumulated (streamSession []) (i + 1), afterPolls (streamSession []) (i + 1)))
        ∨ ((∀ j, j < 100 → stopAfter promptMarkers false [] (streamSession []) j = false) ∧
          ReadChannelExpect 1000 promptMarkers (streamSession [])
            = (accumulated (streamSession []) 100, afterPolls (streamSession []) 100))) ∧
      ((∀ i, pollChunk (streamSession []) i = []) → [] ∉ promptMarkers →
        ReadChannelExpect 1000 promptMarkers (streamSession [])
          = ([], afterPolls (streamSession []) 2))) :=
  ⟨by decide, ReadChannelExpect_termination 1000 promptMarkers (streamSession [])⟩

/-- C7 (counterexample): with the empty string among the markers, a silent stream
returns after one poll, not two. -/
theorem ReadChannelExpect_empty_marker_one_poll :
    (∀ i, i < 100 → pollChunk (streamSession []) i = []) ∧
    ReadChannelExpect 1000 [[]] (streamSession [])
      = ([], { streamSession [] with polls := 1 }) :=
  ⟨by decide, by decide⟩

/-! ## C8: priority of the vendor signatures -/

theorem GetSSHBrand_eq_brandOf (w : World) (s : SSHSession) (hb : s.brand = [])
    (hopen : s.closed = false) :
    (GetSSHBrand w s).1 = brandOf (probeText w s) [] ∧
    (GetSSHBrand w s).2.brand = brandOf (probeText w s) [] := by
  have hw := WriteChannel_open s brandProbes hopen
  have hbr : (ReadChannelTiming 15 { s with inp := s.inp ++ brandProbes }).2.brand = [] := by
    have : ∀ n out (s0 : SSHSession), (readTimingLoop n out s0).2.brand = s0.brand := by
      intro n
      induction n with
      | zero => intro out s0; rfl
      | succ n ih =>
        intro out s0
        have hr : (readChannelData s0).2.brand = s0.brand := by
          unfold readChannelData
          split <;> rfl
        simp only [readTimingLoop]
        split
        · split
          · exact hr
          · rw [ih]
            exact hr
        · rw [ih]
          exact hr
    unfold ReadChannelTiming
    rw [this]
    exact hb
  have hg : GetSSHBrand w s =
      (brandOf (probeText w s)
          (ReadChannelTiming 15 { s with inp := s.inp ++ brandProbes }).2.brand,
        { (ReadChannelTiming 15 { s with inp := s.inp ++ brandProbes }).2 with
          brand := brandOf (probeText w s)
            (ReadChannelTiming 15 { s with inp := s.inp ++ brandProbes }).2.brand }) := by
    unfold GetSSHBrand
    rw [if_neg (by simp [hb])]
    simp only [hw]
    rfl
  rw [hg, hbr]
  exact ⟨rfl, rfl⟩

/-- C8 (amended): on an open session without a cached vendor whose lower-cased probe
output contains "linux", `GetSSHBrand` returns and caches huawei, h3c, sangfor or
anshi, never linux, when the output also contains one of the signatures huawei,
huarong, futurematrix, h3c, sangfor, anshi, "fit mode", "fat mode"; when it contains
none of these it returns linux, whether or not the output contains dptech,
"current privilege" or cisco. -/
theorem GetSSHBrand_linux_priority (w : World) (s : SSHSession) (hb : s.brand = [])
    (hopen : s.closed = false) (hlinux : Contains (probeText w s) LINUX = true) :
    (GetSSHBrand w s).2.brand = (GetSSHBrand w s).1 ∧
    (hasEarlySignature (probeText w s) = true →
      (GetSSHBrand w s).1 ∈ [HUAWEI, H3C, SANGFOR, AnShi] ∧ (GetSSHBrand w s).1 ≠ LINUX) ∧
    (hasEarlySignature (probeText w s) = false → (GetSSHBrand w s).1 = LINUX) := by
  obtain ⟨h1, h2⟩ := GetSSHBrand_eq_brandOf w s hb hopen
  rw [h1, h2]
  refine ⟨rfl, ?_, ?_⟩
  · intro he
    unfold hasEarlySignature at he
    unfold brandOf
    split
    · exact ⟨by simp, by decide⟩
    · split
      · exact ⟨by simp, by decide⟩
      · split
        · exact ⟨by simp, by decide⟩
        · split
          · exact ⟨by simp, by decide⟩
          · simp_all
  · intro he
    unfold hasEarlySignature at he
    simp only [Bool.or_eq_false_iff] at he
    obtain ⟨⟨⟨⟨⟨⟨⟨e1, e2⟩, e3⟩, e4⟩, e5⟩, e6⟩, e7⟩, e8⟩ := he
    unfold brandOf
    rw [e1, e2, e3, e4, e5, e6, e7, e8, hlinux]
    rfl

/-- C8 (amended) on a device that answers the probe with `Linux H3C`. -/
theorem GetSSHBrand_linux_priority_witness :
    (GetSSHBrand sampleWorld (probeSession "Linux H3C".toList)).1 = H3C ∧
    ((GetSSHBrand sampleWorld (probeSession "Linux H3C".toList)).2.brand
        = (GetSSHBrand sampleWorld (probeSession "Linux H3C".toList)).1 ∧
      (hasEarlySignature (probeText sampleWorld (probeSession "Linux H3C".toList)) = true →
        (GetSSHBrand sampleWorld (probeSession "Linux H3C".toList)).1
            ∈ [HUAWEI, H3C, SANGFOR, AnShi] ∧
          (GetSSHBrand sampleWorld (probeSession "Linux H3C".toList)).1 ≠ LINUX) ∧
      (hasEarlySignature (probeText sampleWorld (probeSession "Linux H3C".toList)) = false →
        (GetSSHBrand sampleWorld (probeSession "Linux H3C".toList)).1 = LINUX)) :=
  ⟨by decide,
   GetSSHBrand_linux_priority sampleWorld (probeSession "Linux H3C".toList) rfl rfl (by decide)⟩

/-- C8 (counterexample): the probe output `Linux dptech` contains the POSIX marker
and the signature of dptech, and `GetSSHBrand` returns linux. -/
theorem GetSSHBrand_linux_before_dptech :
    (probeSession "Linux dptech".toList).brand = [] ∧
    Contains (probeText sampleWorld (probeSession "Linux dptech".toList)) LINUX = true ∧
    Contains (probeText sampleWorld (probeSession "Linux dptech".toList)) DIPU = true ∧
    (GetSSHBrand sampleWorld (probeSession "Linux dptech".toList)).1 = LINUX :=
  ⟨rfl, by decide, by decide, by decide⟩

/-! ## C9: the idle eviction sweep -/

theorem RunAutoCleanOnce_cache (w : World) (m : SessionManager)
    (hkeys : (m.sessionCache.map Prod.fst).Nodup) :
    (RunAutoCleanOnce w m).sessionCache
      = m.sessionCache.filter (fun e => !expiredIn w.now m.heap e.2) := by
  obtain ⟨h1, _⟩ := timeoutScan_spec w.now m.sessionCache m.heap []
  simp only [RunAutoCleanOnce, getTimeoutSessionIndex, h1, List.nil_append, foldl_mapDelete]
  apply List.filter_congr
  intro e he
  by_cases hexp : expiredIn w.now m.heap e.2 = true
  · have : e.1 ∈ (m.sessionCache.filter (fun e => expiredIn w.now m.heap e.2)).map Prod.fst :=
      List.mem_map.2 ⟨e, List.mem_filter.2 ⟨he, hexp⟩, rfl⟩
    simp [this, hexp]
  · have : e.1 ∉ (m.sessionCache.filter (fun e => expiredIn w.now m.heap e.2)).map Prod.fst := by
      intro hmem
      obtain ⟨e1, he1, hk⟩ := List.mem_map.1 hmem
      obtain ⟨he1m, he1x⟩ := List.mem_filter.1 he1
      have := List.inj_on_of_nodup_map hkeys he1m he hk
      subst this
      exact hexp he1x
    simp [this, hexp]

theorem RunAutoCleanOnce_heap (w : World) (m : SessionManager) (a : Nat) :
    (RunAutoCleanOnce w m).heap[a]? =
      if m.sessionCache.any (fun e => e.2 == a && expiredIn w.now m.heap a) then
        (m.heap[a]?).map Close
      else m.heap[a]? := by
  obtain ⟨_, h2⟩ := timeoutScan_spec w.now m.sessionCache m.heap []
  simp only [RunAutoCleanOnce, getTimeoutSessionIndex]
  exact h2 a

/-- C9: with a clock reading `w.now` (in nanoseconds), one sweep removes from the cache
every entry whose session was last used more than 9 minutes (540 000 000 000 ns)
before, and marks that session closed; it keeps every other entry, with its session
as it was, adds no entry, and leaves the sessions that the cache does not hold as
they were.  A later `GetSession` for a removed key finds no cached session and goes
on to open a fresh one, which it stores under the key and returns (or returns the
error of the connection attempt). -/
theorem RunAutoCleanOnce_evicts_exactly (w w1 : World) (m : SessionManager)
    (hkeys : (m.sessionCache.map Prod.fst).Nodup) :
    (∀ e ∈ m.sessionCache, ∀ s, m.heap[e.2]? = some s →
      (9 * 60 * 1000000000 < w.now - s.lastUseTime →
        e ∉ (RunAutoCleanOnce w m).sessionCache ∧
        (RunAutoCleanOnce w m).heap[e.2]? = some { s with closed := true }) ∧
      (¬ 9 * 60 * 1000000000 < w.now - s.lastUseTime →
        e ∈ (RunAutoCleanOnce w m).sessionCache ∧
        (RunAutoCleanOnce w m).heap[e.2]? = some s)) ∧
    (RunAutoCleanOnce w m).sessionCache.Sublist m.sessionCache ∧
    (∀ a, (∀ e ∈ m.sessionCache, e.2 ≠ a) → (RunAutoCleanOnce w m).heap[a]? = m.heap[a]?) ∧
    (∀ e ∈ m.sessionCache, ∀ s, m.heap[e.2]? = some s →
      9 * 60 * 1000000000 < w.now - s.lastUseTime →
      ∀ user password ipPort brand, sessionKey user password ipPort = e.1 →
        GetSessionCache (RunAutoCleanOnce w m) e.1 = none ∧
        (∀ err, NewSSHSession w1 user password ipPort = .error err →
          GetSession w1 (RunAutoCleanOnce w m) user password ipPort brand
            = some (.error err, RunAutoCleanOnce w m)) ∧
        (∀ s0, NewSSHSession w1 user password ipPort = .ok s0 →
          ∃ s1, initSession w1 s0 brand = some s1 ∧ s1.closed = false ∧
            GetSession w1 (RunAutoCleanOnce w m) user password ipPort brand
              = some (.ok (some (RunAutoCleanOnce w m).heap.length),
                  SetSessionCache
                    { RunAutoCleanOnce w m with heap := (RunAutoCleanOnce w m).heap ++ [s1] }
                    e.1 (RunAutoCleanOnce w m).heap.length))) := by
  have hcache := RunAutoCleanOnce_cache w m hkeys
  have hheap := RunAutoCleanOnce_heap w m
  have hexp : ∀ (a : Nat) (s : SSHSession), m.heap[a]? = some s →
      (expiredIn w.now m.heap a = true ↔ 9 * 60 * 1000000000 < w.now - s.lastUseTime) := by
    intro a s hs
    simp only [expiredIn, hs, olderThanNineMinutes, decide_eq_true_eq]
  refine ⟨?_, ?_, ?_, ?_⟩
  · intro e he s hs
    refine ⟨?_, ?_⟩
    · intro hold
      have hx : expiredIn w.now m.heap e.2 = true := (hexp e.2 s hs).2 hold
      refine ⟨?_, ?_⟩
      · rw [hcache]
        intro hmem
        have := (List.mem_filter.1 hmem).2
        simp [hx] at this
      · rw [hheap e.2]
        have hany : m.sessionCache.any (fun e1 => e1.2 == e.2 && expiredIn w.now m.heap e.2)
            = true := by
          rw [List.any_eq_true]
          exact ⟨e, he, by simp [hx]⟩
        rw [if_pos hany, hs]
        rfl
    · intro hnew
      have hx : expiredIn w.now m.heap e.2 = false := by
        cases hh : expiredIn w.now m.heap e.2 with
        | false => rfl
        | true => exact absurd ((hexp e.2 s hs).1 hh) hnew
      refine ⟨?_, ?_⟩
      · rw [hcache]
        exact List.mem_filter.2 ⟨he, by simp [hx]⟩
      · rw [hheap e.2]
        have hany : ¬ m.sessionCache.any (fun e1 => e1.2 == e.2 && expiredIn w.now m.heap e.2)
            = true := by
          simp [hx]
        rw [if_neg hany, hs]
  · rw [hcache]
    exact List.filter_sublist _
  · intro a ha
    rw [hheap a]
    have hany : ¬ m.sessionCache.any (fun e1 => e1.2 == a && expiredIn w.now m.heap a)
        = true := by
      rw [List.any_eq_true]
      rintro ⟨e, he, hb⟩
      simp only [Bool.and_eq_true, beq_iff_eq] at hb
      exact ha e he hb.1
    rw [if_neg hany]
  · intro e he s hs hold user password ipPort brand hkey
    have hexpE : expiredIn w.now m.heap e.2 = true := (hexp e.2 s hs).2 hold
    have hnone : GetSessionCache (RunAutoCleanOnce w m) e.1 = none := by
      unfold GetSessionCache
      rw [RunAutoCleanOnce_cache w m hkeys]
      apply mapGet_eq_none
      intro e1 he1 hk
      obtain ⟨he1m, he1x⟩ := List.mem_filter.1 he1
      have := List.inj_on_of_nodup_map hkeys he1m he hk
      subst this
      simp [hexpE] at he1x
    have hget : GetSession w1 (RunAutoCleanOnce w m) user password ipPort brand =
        match updateSession w1 (RunAutoCleanOnce w m) user password ipPort brand with
        | none => none
        | some (some err, m2) => some (Except.error err, m2)
        | some (none, m2) =>
          some (Except.ok (GetSessionCache m2 (sessionKey user password ipPort)), m2) := by
      unfold GetSession
      simp only [hkey, hnone]
    refine ⟨hnone, ?_, ?_⟩
    · intro err herr
      rcases updateSession_cases w1 (RunAutoCleanOnce w m) user password ipPort brand with
        ⟨err1, hn, hu⟩ | ⟨s0, s1, hn, _, _, _⟩
      · rw [herr] at hn
        cases hn
        rw [hget, hu]
      · rw [herr] at hn
        cases hn
    · intro s0 hs0
      rcases updateSession_cases w1 (RunAutoCleanOnce w m) user password ipPort brand with
        ⟨err1, hn, _⟩ | ⟨s0', s1, hn, hinit, hcl, hu⟩
      · rw [hs0] at hn
        cases hn
      · rw [hs0] at hn
        cases hn
        refine ⟨s1, hinit, hcl, ?_⟩
        rw [hget, hu]
        simp only [hkey]
        simp [GetSessionCache, SetSessionCache, mapGet_mapSet]

/-- C9 on a cache of two sessions, one idle for 700 s and one for 100 s: the sweep
closes and removes the first and keeps the second. -/
theorem RunAutoCleanOnce_evicts_exactly_witness :
    (twoSessionManager.sessionCache.map Prod.fst).Nodup ∧
    RunAutoCleanOnce sweepWorld twoSessionManager
      = { heap := [{ idleSession 0 with closed := true }, idleSession 600000000000],
          sessionCache := [("root_pw_10.0.0.2:22".toList, 1)] } ∧
    ((∀ e ∈ twoSessionManager.sessionCache, ∀ s, twoSessionManager.heap[e.2]? = some s →
      (9 * 60 * 1000000000 < sweepWorld.now - s.lastUseTime →
        e ∉ (RunAutoCleanOnce sweepWorld twoSessionManager).sessionCache ∧
        (RunAutoCleanOnce sweepWorld twoSessionManager).heap[e.2]? = some { s with closed := true }) ∧
      (¬ 9 * 60 * 1000000000 < sweepWorld.now - s.lastUseTime →
        e ∈ (RunAutoCleanOnce sweepWorld twoSessionManager).sessionCache ∧
        (RunAutoCleanOnce sweepWorld twoSessionManager).heap[e.2]? = some s)) ∧
    (RunAutoCleanOnce sweepWorld twoSessionManager).sessionCache.Sublist twoSessionManager.sessionCache ∧
    (∀ a, (∀ e ∈ twoSessionManager.sessionCache, e.2 ≠ a) → (RunAutoCleanOnce sweepWorld twoSessionManager).heap[a]? = twoSessionManager.heap[a]?) ∧
    (∀ e ∈ twoSessionManager.sessionCache, ∀ s, twoSessionManager.heap[e.2]? = some s →
      9 * 60 * 1000000000 < sweepWorld.now - s.lastUseTime →
      ∀ user password ipPort brand, sessionKey user password ipPort = e.1 →
        GetSessionCache (RunAutoCleanOnce sweepWorld twoSessionManager) e.1 = none ∧
        (∀ err, NewSSHSession sampleWorld user password ipPort = .error err →
          GetSession sampleWorld (RunAutoCleanOnce sweepWorld twoSessionManager) user password ipPort brand
            = some (.error err, RunAutoCleanOnce sweepWorld twoSessionManager)) ∧
        (∀ s0, NewSSHSession sampleWorld user password ipPort = .ok s0 →
          ∃ s1, initSession sampleWorld s0 brand = some s1 ∧ s1.closed = false ∧
            GetSession sampleWorld (RunAutoCleanOnce sweepWorld twoSessionManager) user password ipPort brand
              = some (.ok (some (RunAutoCleanOnce sweepWorld twoSessionManager).heap.length),
                  SetSessionCache
                    { RunAutoCleanOnce sweepWorld twoSessionManager with heap := (RunAutoCleanOnce sweepWorld twoSessionManager).heap ++ [s1] }
                    e.1 (RunAutoCleanOnce sweepWorld twoSessionManager).heap.length)))) :=
  ⟨by decide, by decide,
   RunAutoCleanOnce_evicts_exactly sweepWorld sampleWorld twoSessionManager (by decide)⟩

/-! ## C10: per-key serialization -/

/-- C10 (the code against the claim): two goroutines call `LockSession` on the same
fresh key; both read the map before either stores a mutex, each creates and locks a
mutex of its own, and both are in their command batch at the same time.  The first
`UnlockSession` then unlocks the mutex stored last, which the other goroutine holds,
and the second `UnlockSession` finds that mutex unlocked.  (When the second caller
arrives after the first has stored its mutex, it finds that mutex and waits.) -/
theorem LockSession_lazy_creation_race :
    lockRun "admin_pw_10.0.0.1:22".toList twoCallers [0, 1, 0, 1, 0, 1]
      = some { sessionLocker := [("admin_pw_10.0.0.1:22".toList, 1)],
               mutexes := [true, true],
               pcs := [.critical 0, .critical 1] } ∧
    lockRun "admin_pw_10.0.0.1:22".toList twoCallers [0, 1, 0, 1, 0, 1, 0]
      = some { sessionLocker := [("admin_pw_10.0.0.1:22".toList, 1)],
               mutexes := [true, false],
               pcs := [.done 1, .critical 1] } ∧
    lockRun "admin_pw_10.0.0.1:22".toList twoCallers [0, 1, 0, 1, 0, 1, 0, 1] = none ∧
    lockRun "admin_pw_10.0.0.1:22".toList twoCallers [0, 0, 0, 1]
      = some { sessionLocker := [("admin_pw_10.0.0.1:22".toList, 0)],
               mutexes := [true],
               pcs := [.critical 0, .ready 0] } ∧
    lockRun "admin_pw_10.0.0.1:22".toList twoCallers [0, 0, 0, 1, 1] = none := by
  decide

/-! ## Lemmas on the command executor -/

/-- `GetSession` does not panic. -/
theorem GetSession_total (w : World) (m : SessionManager) (user password ipPort brand : Str) :
    ∃ res m1, GetSession w m user password ipPort brand = some (res, m1) := by
  have fresh : ∀ m0 : SessionManager, ∃ res m1,
      (match updateSession w m0 user password ipPort brand with
        | none => none
        | some (some err, m2) => some (Except.error err, m2)
        | some (none, m2) =>
          some (Except.ok (GetSessionCache m2 (sessionKey user password ipPort)), m2))
        = some (res, m1) := by
    intro m0
    rcases updateSession_cases w m0 user password ipPort brand with
      ⟨err, _, hu⟩ | ⟨s0, s1, _, _, _, hu⟩
    · rw [hu]
      exact ⟨_, _, rfl⟩
    · rw [hu]
      exact ⟨_, _, rfl⟩
  unfold GetSession
  simp only
  split
  · exact fresh _
  · split
    · exact fresh _
    · split
      · exact ⟨_, _, rfl⟩
      · exact fresh _

/-- `RunCmdWithBrand` does not panic: it returns either the error of `GetSession`,
with the status of its category, or no error, with the overall status of the
commands. -/
theorem RunCmdWithBrand_total (w : World) (m : SessionManager) (d : Device) (timeOut : Int) :
    ∃ r, RunCmdWithBrand w m d timeOut = some r ∧
      (∀ err, r.err = some err → r.device.SendStatus = firstCategoryStatus err d.IP) ∧
      (r.err = none →
        r.device.SendStatus = statusSuccess ∨ r.device.SendStatus = statusPartial) := by
  obtain ⟨res, m1, hget⟩ := GetSession_total w m (withDefaultPort d).Username
    (withDefaultPort d).Password (ipPortOf (withDefaultPort d)) (withDefaultPort d).Brand
  cases res with
  | error err =>
    refine ⟨{ device := { withDefaultPort d with SendStatus := sessionErrorStatus err d.IP },
              manager := m1, err := some err }, ?_, ?_, ?_⟩
    · simp only [RunCmdWithBrand, hget, withDefaultPort_IP]
    · intro err1 h1
      simp only [Option.some.injEq] at h1
      subst h1
      exact sessionErrorStatus_eq_firstCategoryStatus err d.IP
    · intro h1
      cases h1
  | ok a =>
    obtain ⟨a1, s, ha, hs, hopen⟩ := GetSession_ok_open _ _ _ _ _ _ _ _ hget
    subst ha
    obtain ⟨acc1, s1, hrun, _, _, _⟩ :=
      runCmds_open (effectiveTimeout (withDefaultPort d) timeOut) (withDefaultPort d).Cmds s
        { successNum := 0, rawRes := [], mapRes := [] } hopen
    refine ⟨{ device :=
                { withDefaultPort d with
                  SendStatus :=
                    if acc1.successNum = (withDefaultPort d).Cmds.length then statusSuccess
                    else statusPartial,
                  RawResult := acc1.rawRes,
                  MapResult := acc1.mapRes },
              manager := { m1 with heap := m1.heap.set a1 s1 },
              err := none }, ?_, ?_, ?_⟩
    · simp only [RunCmdWithBrand, hget, hs, hrun]
    · intro err1 h1
      cases h1
    · intro _
      simp only
      split
      · exact Or.inl rfl
      · exact Or.inr rfl

/-! ## C11: bulk dispatch isolation -/

/-- C11 (the code against the claim): `BulkRunCmd` is called on two devices with the
same user, password and address, as in `TestBulkRunCmd`, when the key has no mutex
yet.  When both goroutines read the map `sessionLocker` before either stores its
mutex, each locks a mutex of its own and runs its commands; the first
`UnlockSession` unlocks the mutex stored last, the call still waits for the second
goroutine, and the second `UnlockSession` unlocks that mutex again: the program
ends and `BulkRunCmd` returns nothing.  When the first goroutine finishes before
the second starts, the call returns `nil` with both records filled; so does the
call on three devices with different keys, of which the second is rejected, with
the status of the failure in the second record only. -/
theorem BulkRunCmd_same_key_fatal :
    BulkRunCmd sampleWorld emptyManager [] [] sameKeyDevices 50 [0, 1, 0, 1, 0, 1, 0, 1, 0]
      = .waiting ∧
    BulkRunCmd sampleWorld emptyManager [] [] sameKeyDevices 50 [0, 1, 0, 1, 0, 1, 0, 1, 0, 1]
      = .fatal ∧
    (∃ out m1, BulkRunCmd sampleWorld emptyManager [] [] sameKeyDevices 50
        [0, 0, 0, 0, 0, 1, 1, 1, 1] = .returned out m1 none ∧
      out.map (fun d => d.SendStatus) = [statusSuccess, statusSuccess]) ∧
    (∃ out m1, BulkRunCmd sampleWorld emptyManager [] [] threeDevices 50
        [2, 0, 1, 1, 0, 2, 2, 1, 0, 0, 1, 2, 1, 0, 2] = .returned out m1 none ∧
      out.map (fun d => d.SendStatus)
        = [statusSuccess, "密码错误,IP为10.0.0.2".toList, statusSuccess]) :=
  ⟨by decide, by decide, ⟨_, _, rfl, rfl⟩, ⟨_, _, rfl, rfl⟩⟩

/-! ## C12: close before removal -/

/-- C12 (the code against the claim): when the cached session of a key is open but
fails the liveness probe and the new connection succeeds, `GetSession` stores the
new session under the key and returns it, and the session that it replaces is left
open: `Close` is not called on it. -/
theorem GetSession_replaces_without_Close (w : World) (m : SessionManager)
    (user password ipPort brand : Str) (a : Nat) (s s0 : SSHSession)
    (hcache : GetSessionCache m (sessionKey user password ipPort) = some a)
    (hs : m.heap[a]? = some s) (hopen : s.closed = false)
    (hprobe : (CheckSelf s).1 = false)
    (hdial : NewSSHSession w user password ipPort = .ok s0) :
    ∃ m1 old, GetSession w m user password ipPort brand
        = some (.ok (some m.heap.length), m1) ∧
      GetSessionCache m1 (sessionKey user password ipPort) = some m.heap.length ∧
      a ≠ m.heap.length ∧
      m1.heap[a]? = some old ∧ old.closed = false := by
  have hlt : a < m.heap.length := (List.getElem?_eq_some_iff.1 hs).1
  rcases updateSession_cases w { m with heap := m.heap.set a (CheckSelf s).2 }
      user password ipPort brand with ⟨err, hn, _⟩ | ⟨s0', s1, hn, _, _, hu⟩
  · rw [hdial] at hn
    cases hn
  · have hget : GetSession w m user password ipPort brand =
        some (.ok (GetSessionCache
            (SetSessionCache
              { m with heap := m.heap.set a (CheckSelf s).2 ++ [s1] }
              (sessionKey user password ipPort) (m.heap.set a (CheckSelf s).2).length)
            (sessionKey user password ipPort)),
          SetSessionCache
            { m with heap := m.heap.set a (CheckSelf s).2 ++ [s1] }
            (sessionKey user password ipPort) (m.heap.set a (CheckSelf s).2).length) := by
      unfold GetSession
      simp only [hcache, hs, hprobe, Bool.false_eq_true, if_false, hu]
    have hc : GetSessionCache
        (SetSessionCache { m with heap := m.heap.set a (CheckSelf s).2 ++ [s1] }
          (sessionKey user password ipPort) (m.heap.set a (CheckSelf s).2).length)
        (sessionKey user password ipPort) = some m.heap.length := by
      simp [GetSessionCache, SetSessionCache, mapGet_mapSet]
    refine ⟨_, (CheckSelf s).2, ?_, hc, Nat.ne_of_lt hlt, ?_, ?_⟩
    · rw [hget, hc]
    · simp [SetSessionCache, List.getElem?_append_left, hlt]
    · rw [CheckSelf_closed]
      exact hopen

/-- C12 on the cache of two idle sessions: the session of `admin` does not answer
the probe, a new session takes its place, and it stays open in the heap. -/
theorem GetSession_replaces_without_Close_witness :
    (GetSession sampleWorld twoSessionManager "admin".toList "pw".toList "10.0.0.1:22".toList
        HUAWEI).map (fun r => (r.1, r.2.sessionCache, r.2.heap.map (fun s => s.closed)))
      = some (.ok (some 2),
          [("admin_pw_10.0.0.1:22".toList, 2), ("root_pw_10.0.0.2:22".toList, 1)],
          [false, false, false]) ∧
    ∃ m1 old, GetSession sampleWorld twoSessionManager "admin".toList "pw".toList
          "10.0.0.1:22".toList HUAWEI
        = some (.ok (some twoSessionManager.heap.length), m1) ∧
      GetSessionCache m1 (sessionKey "admin".toList "pw".toList "10.0.0.1:22".toList)
        = some twoSessionManager.heap.length ∧
      0 ≠ twoSessionManager.heap.length ∧
      m1.heap[0]? = some old ∧ old.closed = false :=
  ⟨rfl,
   GetSession_replaces_without_Close sampleWorld twoSessionManager "admin".toList "pw".toList
     "10.0.0.1:22".toList HUAWEI 0 (idleSession 0)
     { inp := [],
       out := ["screen-length 0 temporary\r\n<HW>".toList] ++ List.replicate 10 [] ++
         ["dis clock\r\n2024-01-01\r\n<HW>".toList],
       brand := [], lastUseTime := 1000, closed := false, polls := 2 }
     rfl rfl rfl rfl rfl⟩


/-! ## C13: pagination-disable initialisation -/

/-- What `initSession` does on an open session once the vendor is known: it writes
the commands of the vendor and drains with a prompt read of 5 seconds, or, in the
`default` branch, returns at once. -/
theorem initSession_with_hint (w : World) (s : SSHSession) (brand : Str) (hb : brand ≠ [])
    (hopen : s.closed = false) :
    initSession w s brand =
      match noPageCmds brand with
      | none => some s
      | some cmds => some (ReadChannelTiming 5 { s with inp := s.inp ++ cmds }).2 := by
  unfold initSession
  simp only [hb, if_false]
  cases noPageCmds brand with
  | none => rfl
  | some cmds => simp only [WriteChannel_open s cmds hopen]

/-- C13 (the code against the claim): for the vendor tag dptech, given as hint or
detected, `initSession` writes no pagination-disable command and makes no draining
read: the `switch` has no case for it and its `default` branch returns.  The seven
other tags get their command and the drain. -/
theorem initSession_dptech_skipped (w : World) (s : SSHSession) (hopen : s.closed = false) :
    initSession w s DIPU = some s ∧
    ((GetSSHBrand w s).1 = DIPU → initSession w s [] = some (GetSSHBrand w s).2) ∧
    (∀ e, e ∈ [(HUAWEI, HuaweiNoPage), (H3C, H3cNoPage), (SANGFOR, SangforNoPage),
        (AnShi, AnshiNoPage), (LINUX, LinuxNopage), (ZTE, ZTENoPage), (CISCO, CiscoNoPage)] →
      initSession w s e.1 = some (ReadChannelTiming 5 { s with inp := s.inp ++ [e.2] }).2) := by
  refine ⟨?_, ?_, ?_⟩
  · rw [initSession_with_hint w s DIPU (by decide) hopen]
    rfl
  · intro hd
    unfold initSession
    simp only [if_true, hd]
    rfl
  · intro e he
    simp only [List.mem_cons, List.mem_singleton, List.not_mem_nil, or_false] at he
    rcases he with h | h | h | h | h | h | h <;> subst h <;>
      rw [initSession_with_hint w s _ (by decide) hopen] <;> rfl

/-- C13 on a device that answers the vendor probe with `DPtech`: the tag is
detected, and `initSession` leaves the session as the detection left it, the vendor
probes being the only commands written. -/
theorem initSession_dptech_skipped_witness :
    (GetSSHBrand sampleWorld (probeSession "DPtech FW1000".toList)).1 = DIPU ∧
    (initSession sampleWorld (probeSession "DPtech FW1000".toList) []).map
        (fun s => (s.inp, s.polls)) = some (brandProbes, 150) ∧
    (initSession sampleWorld (probeSession "DPtech FW1000".toList) DIPU
        = some (probeSession "DPtech FW1000".toList) ∧
      ((GetSSHBrand sampleWorld (probeSession "DPtech FW1000".toList)).1 = DIPU →
        initSession sampleWorld (probeSession "DPtech FW1000".toList) []
          = some (GetSSHBrand sampleWorld (probeSession "DPtech FW1000".toList)).2) ∧
      (∀ e, e ∈ [(HUAWEI, HuaweiNoPage), (H3C, H3cNoPage), (SANGFOR, SangforNoPage),
          (AnShi, AnshiNoPage), (LINUX, LinuxNopage), (ZTE, ZTENoPage), (CISCO, CiscoNoPage)] →
        initSession sampleWorld (probeSession "DPtech FW1000".toList) e.1
          = some (ReadChannelTiming 5
              { probeSession "DPtech FW1000".toList with
                inp := (probeSession "DPtech FW1000".toList).inp ++ [e.2] }).2)) :=
  ⟨by decide, rfl,
   initSession_dptech_skipped sampleWorld (probeSession "DPtech FW1000".toList) rfl⟩


/-! ## C14: marker replacement and trailing spaces -/

/-- A line of a text is followed by a line end in the text, or it ends the text. -/
theorem Split_line_position (n : Nat) (t : Str) (hn : t.length ≤ n) :
    ∀ l ∈ Split t '\n', l ++ ['\n'] <:+: t ∨ l <:+ t := by
  induction n generalizing t with
  | zero =>
    have : t = [] := List.length_eq_zero.1 (Nat.le_zero.1 hn)
    subst this
    intro l hl
    simp only [Split, List.mem_singleton] at hl
    subst hl
    exact Or.inr (List.suffix_refl _)
  | succ n ih =>
    intro l hl
    rcases exists_first_line t '\n' with h | ⟨l0, rest, ht, hl0⟩
    · rw [Split_of_not_mem t '\n' h, List.mem_singleton] at hl
      subst hl
      exact Or.inr (List.suffix_refl _)
    · subst ht
      rw [Split_append_sep l0 rest '\n' hl0] at hl
      rcases List.mem_cons.1 hl with e | e
      · subst e
        left
        exact ⟨[], rest, by simp⟩
      · have hrs : rest <:+ l0 ++ '\n' :: rest :=
          (List.suffix_cons _ _).trans (List.suffix_append _ _)
        rcases ih rest (by simp at hn; omega) l e with h1 | h1
        · exact Or.inl (h1.trans hrs.isInfix)
        · exact Or.inr (h1.trans hrs)

/-- In a text that holds no space before a line end and does not end with a space,
no line ends with a space. -/
theorem Split_line_getLast (t : Str) (hC : ¬ [' ', '\n'] <:+: t) (hD : t.getLast? ≠ some ' ') :
    ∀ l ∈ Split t '\n', l.getLast? ≠ some ' ' := by
  intro l hl hlast
  have hne : l ≠ [] := by
    intro h0
    rw [h0] at hlast
    cases hlast
  rcases Split_line_position t.length t (Nat.le_refl _) l hl with h | h
  · apply hC
    refine List.IsInfix.trans ?_ h
    have h1 := List.dropLast_append_getLast hne
    rw [List.getLast?_eq_getLast _ hne] at hlast
    simp only [Option.some.injEq] at hlast
    rw [hlast] at h1
    refine ⟨l.dropLast, [], ?_⟩
    rw [← h1]
    simp
  · apply hD
    obtain ⟨u, hu⟩ := h
    rw [← hu, List.getLast?_append, hlast]
    rfl

/-- The replacement of the marker: for every raw text and every command, the output
of `filterResult` does not contain "Last configuration was", in none of its lines,
and none of the pieces between its line feeds ends with a space (a piece that ends
with a carriage return may hold spaces before it); the output is a part of the text
built by the loop, in which every line that contains the marker, once " \b" is
stripped and the trailing spaces are trimmed, is replaced by the whole sentence
"Last configuration updateed or saved". -/
theorem filterResult_marker_replaced (r c : Str) :
    Contains (filterResult r c) lastConfigMarker = false ∧
    (∀ l ∈ Split (filterResult r c) '\n',
      Contains l lastConfigMarker = false ∧ l.getLast? ≠ some ' ') ∧
    filterResult r c <:+: normalizeLines r ∧
    normalizeLines r =
      (Split (Replace (Replace r ['\r', '\r', '\n'] ['\r', '\n']) [' ', '\r', '\n']
        ['\r', '\n']) '\n').flatMap (fun l => filterLine l ++ ['\n']) ∧
    (∀ l, Contains (TrimRight (Replace l [' ', '\x08'] []) [' ']) lastConfigMarker = true →
      filterLine l = lastConfigCanonical) := by
  obtain ⟨fX1, fX2, fX3⟩ := normalizeLines_facts r
  have hin : filterResult r c <:+: normalizeLines r := by
    unfold filterResult
    simp only
    split
    · exact (TrimSpace_isInfix _).trans (List.drop_suffix _ _).isInfix
    · exact List.infix_refl _
  have hD : (filterResult r c).getLast? ≠ some ' ' := by
    unfold filterResult
    simp only
    split
    · exact TrimSpace_getLast _
    · rw [fX1]
      decide
  have hB : ¬ lastConfigMarker <:+: filterResult r c := fun h => fX2 (h.trans hin)
  have hC : ¬ [' ', '\n'] <:+: filterResult r c := fun h => fX3 (h.trans hin)
  have hfalse : ∀ t : Str, ¬ lastConfigMarker <:+: t → Contains t lastConfigMarker = false := by
    intro t ht
    cases hc : Contains t lastConfigMarker with
    | false => rfl
    | true => exact absurd ((Contains_iff _ _).1 hc) ht
  refine ⟨hfalse _ hB, ?_, hin, ?_, ?_⟩
  · intro l hl
    refine ⟨hfalse _ ?_, Split_line_getLast _ hC hD l hl⟩
    intro hm
    apply hB
    rcases Split_line_position _ _ (Nat.le_refl _) l hl with h | h
    · exact hm.trans ((List.prefix_append l ['\n']).isInfix.trans h)
    · exact hm.trans h.isInfix
  · simp only [normalizeLines, filterLines_eq, List.nil_append]
  · intro l hl
    have hne : TrimRight (Replace l [' ', '\x08'] []) [' '] ≠ [] := by
      intro h0
      rw [h0] at hl
      revert hl
      decide
    simp only [filterLine, hl, if_true]
    exact Replace_self _ _ hne

/-- A configuration dump: the marked line becomes the canonical sentence. -/
theorem filterResult_marker_replaced_example :
    filterResult sampleDump "dis cur".toList
      = "dis cur\r\nLast configuration updateed or saved\nsysname X\r\n<HW>".toList ∧
    (Contains (filterResult sampleDump "dis cur".toList) lastConfigMarker = false ∧
      (∀ l ∈ Split (filterResult sampleDump "dis cur".toList) '\n',
        Contains l lastConfigMarker = false ∧ l.getLast? ≠ some ' ') ∧
      filterResult sampleDump "dis cur".toList <:+: normalizeLines sampleDump ∧
      normalizeLines sampleDump =
        (Split (Replace (Replace sampleDump ['\r', '\r', '\n'] ['\r', '\n']) [' ', '\r', '\n']
          ['\r', '\n']) '\n').flatMap (fun l => filterLine l ++ ['\n']) ∧
      (∀ l, Contains (TrimRight (Replace l [' ', '\x08'] []) [' ']) lastConfigMarker = true →
        filterLine l = lastConfigCanonical)) :=
  ⟨by decide, filterResult_marker_replaced sampleDump "dis cur".toList⟩

/-- C14 (the code against the claim): a line of the raw text that ends with two
spaces before "\r\n" keeps one of them.  The replacement of " \r\n" by "\r\n" takes
one space away, and `TrimRight` then finds the carriage return, not a space, at the
end of the piece between two line feeds, and leaves the piece as it is: the line
"sysname X \r\n" of the output ends with a space.  A single space before "\r\n" is
taken away, and so are the spaces at the end of a line that ends with "\n" alone. -/
theorem filterResult_keeps_space_before_line_end :
    filterResult "dis cur\r\nsysname X  \r\n<HW>".toList "dis cur".toList
      = "dis cur\r\nsysname X \r\n<HW>".toList ∧
    Contains (filterResult "dis cur\r\nsysname X  \r\n<HW>".toList "dis cur".toList)
      " \r\n".toList = true ∧
    Replace (Replace "dis cur\r\nsysname X  \r\n<HW>".toList ['\r', '\r', '\n'] ['\r', '\n'])
        [' ', '\r', '\n'] ['\r', '\n']
      = "dis cur\r\nsysname X \r\n<HW>".toList ∧
    filterLine "sysname X \r".toList = "sysname X \r".toList ∧
    filterResult "dis cur\r\nsysname X \r\n<HW>".toList "dis cur".toList
      = "dis cur\r\nsysname X\r\n<HW>".toList ∧
    filterResult "dis cur\nsysname X  \n<HW>".toList "dis cur".toList
      = "dis cur\nsysname X\n<HW>\n".toList := by
  decide

/-! ## C15: identity of the session key -/

theorem append_sep_inj (sep : Char) (a b x y : Str) (ha : sep ∉ a) (hb : sep ∉ b)
    (h : a ++ sep :: x = b ++ sep :: y) : a = b ∧ x = y := by
  induction a generalizing b with
  | nil =>
    cases b with
    | nil => simpa using h
    | cons c b =>
      simp only [List.nil_append, List.cons_append, List.cons.injEq] at h
      exact absurd (by simp [h.1]) hb
  | cons c a ih =>
    cases b with
    | nil =>
      simp only [List.nil_append, List.cons_append, List.cons.injEq] at h
      exact absurd (by simp [h.1]) ha
    | cons d b =>
      simp only [List.cons_append, List.cons.injEq] at h
      obtain ⟨hcd, ht⟩ := h
      obtain ⟨h1, h2⟩ := ih b (fun hm => ha (List.mem_cons_of_mem _ hm))
        (fun hm => hb (List.mem_cons_of_mem _ hm)) ht
      exact ⟨by rw [hcd, h1], h2⟩

/-- The session that `GetSession` returns is the one stored under the session key. -/
theorem GetSession_ok_cached (w : World) (m : SessionManager) (user password ipPort brand : Str)
    (a : Option Nat) (m1 : SessionManager)
    (h : GetSession w m user password ipPort brand = some (.ok a, m1)) :
    GetSessionCache m1 (sessionKey user password ipPort) = a := by
  have fresh : ∀ m0 : SessionManager,
      (match updateSession w m0 user password ipPort brand with
        | none => none
        | some (some err, m2) => some (Except.error err, m2)
        | some (none, m2) =>
          some (Except.ok (GetSessionCache m2 (sessionKey user password ipPort)), m2))
        = some (.ok a, m1) →
      GetSessionCache m1 (sessionKey user password ipPort) = a := by
    intro m0 h0
    rcases updateSession_cases w m0 user password ipPort brand with
      ⟨err, _, hu⟩ | ⟨s0, s1, _, _, _, hu⟩
    · rw [hu] at h0
      cases h0
    · rw [hu] at h0
      simp only [Option.some.injEq, Prod.mk.injEq, Except.ok.injEq] at h0
      obtain ⟨ha, hm⟩ := h0
      rw [← hm]
      exact ha
  unfold GetSession at h
  simp only at h
  split at h
  · exact fresh _ h
  · next a0 hc =>
    split at h
    · exact fresh _ h
    · split at h
      · simp only [Option.some.injEq, Prod.mk.injEq, Except.ok.injEq] at h
        obtain ⟨ha, hm⟩ := h
        rw [← hm, ← ha]
        exact hc
      · exact fresh _ h

/-- Requests with the same user name, password and target have the same session
key; two requests whose user names and passwords hold no "_" and that have the
same session key have the same user name, password and target.  The key
that `RunCmdWithBrand` locks is the key of the arguments it gives to `GetSession`,
and the session that `GetSession` returns is the one stored under that key. -/
theorem sessionKey_identity (u1 p1 t1 u2 p2 t2 : Str)
    (hu1 : '_' ∉ u1) (hu2 : '_' ∉ u2) (hp1 : '_' ∉ p1) (hp2 : '_' ∉ p2) :
    (sessionKey u1 p1 t1 = sessionKey u2 p2 t2 ↔ u1 = u2 ∧ p1 = p2 ∧ t1 = t2) ∧
    (∀ d : Device, lockedKey d = sessionKey (withDefaultPort d).Username
      (withDefaultPort d).Password (ipPortOf (withDefaultPort d))) ∧
    (∀ (w : World) (m : SessionManager) (d : Device) (a : Option Nat) (m1 : SessionManager),
      GetSession w m (withDefaultPort d).Username (withDefaultPort d).Password
        (ipPortOf (withDefaultPort d)) (withDefaultPort d).Brand = some (.ok a, m1) →
      GetSessionCache m1 (lockedKey d) = a) := by
  refine ⟨⟨?_, ?_⟩, fun _ => rfl, ?_⟩
  · intro h
    simp only [sessionKey, List.append_assoc, List.singleton_append] at h
    obtain ⟨h1, h2⟩ := append_sep_inj '_' u1 u2 _ _ hu1 hu2 h
    obtain ⟨h3, h4⟩ := append_sep_inj '_' p1 p2 _ _ hp1 hp2 h2
    exact ⟨h1, h3, h4⟩
  · rintro ⟨h1, h2, h3⟩
    rw [h1, h2, h3]
  · intro w m d a m1 h
    exact GetSession_ok_cached w m _ _ _ _ a m1 h

/-- Two requests of `admin` for two targets have different keys. -/
theorem sessionKey_identity_example :
    (sessionKey "admin".toList "pw".toList "10.0.0.1:22".toList
        = sessionKey "admin".toList "pw".toList "10.0.0.3:22".toList ↔
      "admin".toList = "admin".toList ∧ "pw".toList = "pw".toList ∧
        "10.0.0.1:22".toList = "10.0.0.3:22".toList) ∧
    (∀ d : Device, lockedKey d = sessionKey (withDefaultPort d).Username
      (withDefaultPort d).Password (ipPortOf (withDefaultPort d))) ∧
    (∀ (w : World) (m : SessionManager) (d : Device) (a : Option Nat) (m1 : SessionManager),
      GetSession w m (withDefaultPort d).Username (withDefaultPort d).Password
        (ipPortOf (withDefaultPort d)) (withDefaultPort d).Brand = some (.ok a, m1) →
      GetSessionCache m1 (lockedKey d) = a) :=
  sessionKey_identity "admin".toList "pw".toList "10.0.0.1:22".toList
    "admin".toList "pw".toList "10.0.0.3:22".toList
    (by decide) (by decide) (by decide) (by decide)

/-- C15 (the code against the claim): the user `a_b` with the password `c` and the
user `a` with the password `b_c` have the same session key for the same target,
the separator "_" being a character that the fields may hold themselves; the
device rejects the first, and `GetSession` hands the session that was opened and
cached for the second to the first, without a new connection. -/
theorem sessionKey_collision :
    sessionKey "a_b".toList "c".toList "10.0.0.1:22".toList
      = sessionKey "a".toList "b_c".toList "10.0.0.1:22".toList ∧
    "a_b".toList ≠ "a".toList ∧
    sampleWorld.dial "a_b".toList "c".toList "10.0.0.1:22".toList
      = .error "ssh: handshake failed: ssh: unable to authenticate".toList ∧
    (GetSession sampleWorld underscoreManager "a_b".toList "c".toList "10.0.0.1:22".toList []).map
        (fun r => r.1) = some (.ok (some 0)) :=
  ⟨by decide, by decide, rfl, rfl⟩

/-! ## C16: classification of the dial time-out -/

/-- An occurrence of `p` in `A ++ B` lies in `A`, or `p` shares a character with `B`. -/
theorem infix_append_or_mem (p A B : Str) (h : p <:+: A ++ B) :
    p <:+: A ∨ ∃ x, x ∈ p ∧ x ∈ B := by
  induction A with
  | nil =>
    cases p with
    | nil => exact Or.inl (List.infix_refl _)
    | cons x p => exact Or.inr ⟨x, by simp, h.subset (by simp)⟩
  | cons a A ih =>
    rw [List.cons_append, List.infix_cons_iff] at h
    rcases h with h | h
    · rcases List.prefix_or_prefix_of_prefix h (List.prefix_append (a :: A) B) with h1 | h1
      · exact Or.inl h1.isInfix
      · obtain ⟨q, hq⟩ := h1
        subst hq
        rw [← List.cons_append, List.prefix_append_right_inj] at h
        cases q with
        | nil =>
          rw [List.append_nil]
          exact Or.inl (List.infix_refl _)
        | cons x q =>
          exact Or.inr ⟨x, by simp, h.subset (by simp)⟩
    · rcases ih h with h1 | h1
      · exact Or.inl (List.infix_cons h1)
      · exact Or.inr h1

/-- The dial time-out error of a numeric target holds the substring of no category. -/
theorem dialTimeoutError_no_category (ipPort : Str)
    (htarget : ∀ x ∈ ipPort, x.isDigit = true ∨ x = '.' ∨ x = ':') :
    errorCategories.find? (fun c => Contains (dialTimeoutError ipPort) c.1) = none := by
  rw [List.find?_eq_none]
  intro c hc hcon
  have hin := (Contains_iff _ _).1 (by simpa using hcon)
  rcases infix_append_or_mem _ _ _ hin with h | ⟨x, hx1, hx2⟩
  · have hfalse : ∀ c ∈ errorCategories, Contains "SSH Dial timeout".toList c.1 = false := by
      decide
    have := hfalse c hc
    rw [(Contains_iff _ _).2 h] at this
    cases this
  · have hletters : ∀ c ∈ errorCategories, ∀ x ∈ c.1,
        ¬ (x.isDigit = true ∨ x = '.' ∨ x = ':') := by
      decide
    exact hletters c hc x hx1 (htarget x hx2)

/-- C16 (the code against the claim): when `GetSession` fails with the dial time-out
error of `createConnection` for a numeric target, `RunCmdWithBrand` puts it in the
unclassified bucket, not in the login time-out category: the text
"SSH Dial timeout" does not contain "timed out". -/
theorem RunCmdWithBrand_dial_timeout_unclassified (w : World) (m : SessionManager) (d : Device)
    (timeOut : Int) (m1 : SessionManager)
    (htarget : ∀ x ∈ ipPortOf (withDefaultPort d), x.isDigit = true ∨ x = '.' ∨ x = ':')
    (hget : GetSession w m (withDefaultPort d).Username (withDefaultPort d).Password
      (ipPortOf (withDefaultPort d)) (withDefaultPort d).Brand
      = some (.error (dialTimeoutError (ipPortOf (withDefaultPort d))), m1)) :
    ∃ r, RunCmdWithBrand w m d timeOut = some r ∧
      r.err = some (dialTimeoutError (ipPortOf (withDefaultPort d))) ∧
      r.device.SendStatus = "其他错误:SSH Dial timeout".toList ++ ipPortOf (withDefaultPort d)
        ++ ",IP为".toList ++ d.IP ∧
      r.device.SendStatus ≠ "登录验证连接超时,IP为".toList ++ d.IP := by
  have hR : RunCmdWithBrand w m d timeOut = some
      { device := { withDefaultPort d with
          SendStatus := sessionErrorStatus (dialTimeoutError (ipPortOf (withDefaultPort d))) d.IP },
        manager := m1, err := some (dialTimeoutError (ipPortOf (withDefaultPort d))) } := by
    simp only [RunCmdWithBrand, hget, withDefaultPort_IP]
  have hs : sessionErrorStatus (dialTimeoutError (ipPortOf (withDefaultPort d))) d.IP
      = "其他错误:SSH Dial timeout".toList ++ ipPortOf (withDefaultPort d)
        ++ ",IP为".toList ++ d.IP := by
    rw [sessionErrorStatus_eq_firstCategoryStatus]
    simp only [firstCategoryStatus, dialTimeoutError_no_category _ htarget]
    simp [dialTimeoutError]
  refine ⟨_, hR, rfl, hs, ?_⟩
  show sessionErrorStatus (dialTimeoutError (ipPortOf (withDefaultPort d))) d.IP ≠ _
  rw [hs]
  intro h
  have := congrArg List.head? h
  simp at this

/-- C16 on the sample device when the dial times out. -/
theorem RunCmdWithBrand_dial_timeout_unclassified_witness :
    (RunCmdWithBrand timeoutWorld emptyManager (sampleDevice "admin".toList) 50).map
        (fun r => r.device.SendStatus)
      = some "其他错误:SSH Dial timeout10.0.0.1:22,IP为10.0.0.1".toList ∧
    ∃ r, RunCmdWithBrand timeoutWorld emptyManager (sampleDevice "admin".toList) 50 = some r ∧
      r.err = some (dialTimeoutError (ipPortOf (withDefaultPort (sampleDevice "admin".toList)))) ∧
      r.device.SendStatus = "其他错误:SSH Dial timeout".toList
        ++ ipPortOf (withDefaultPort (sampleDevice "admin".toList))
        ++ ",IP为".toList ++ (sampleDevice "admin".toList).IP ∧
      r.device.SendStatus ≠ "登录验证连接超时,IP为".toList ++ (sampleDevice "admin".toList).IP :=
  ⟨by decide,
   RunCmdWithBrand_dial_timeout_unclassified timeoutWorld emptyManager
     (sampleDevice "admin".toList) 50 emptyManager (by decide) rfl⟩


end ArkSSH
